import Mathlib

/-!
Verification of the Nightglow workflow engine against its specification.

This file gives a shallow embedding, in Lean, of the parts of the code that
the checked properties talk about:

* the dependency scheduler (`Scheduler.plan` in `browser/policy/policy.ts`),
* the per-task reconciliation state machine (`Reconciler` in the engine),
* the Kafka topic routing (`eventTypeToTopic` in `src/kafka/topics.ts`),
* the buffered event producer flush (`EventProducer.flush` in
  `src/kafka/producer.ts`),
* the probe severity computation (`InstrumentFactory.buildProbe` /
  `buildAlertCheck` in `src/observability/tracer.ts`),
* the step executor (`BrowserExecutor` in the executor module), and
* the instrument registry (`InstrumentRegistry.getForPhase` in
  `src/instruments/registry.ts`).

Conventions of the embedding:

* JavaScript `Map` objects keyed by strings are represented as association
  lists in insertion order; `Map.get` is a first-match lookup and `Map.set`
  replaces in place or appends.
* `Date.now()` is passed in explicitly as a `now : Nat` argument.
* Thrown exceptions become `Except String` results; the thrown message is the
  error value.
* JavaScript numbers are modelled as `Int` (floating point width is
  abstracted; none of the checked properties depends on it).
* Opaque browser handles (puppeteer pages, elements) are modelled as records
  of oracle functions returning `Except`/`Option` values, so that every
  possible behaviour of the real handle is a possible instantiation.
-/

namespace Nightglow

/-! ## DSL data model (`dsl/types.ts`) -/

/-- A field of an extraction schema (`Field` in `dsl/types.ts`). -/
structure Field where
  name : String
  type : String
deriving DecidableEq, Repr

/-- An extraction schema (`Schema` in `dsl/types.ts`). -/
structure Schema where
  fields : List Field
deriving DecidableEq, Repr

/-- A declarative step (`Step` in `dsl/types.ts`), a tagged union over the
four step kinds. -/
inductive Step
  | navigate (url : String)
  | waitFor (selector : String) (timeoutMs : Int)
  | click (selector : String)
  | extract (selector : String) (schema : Schema)
deriving DecidableEq, Repr

/-- Retry policy of a task (`RetryPolicy` in `dsl/types.ts`). -/
structure RetryPolicy where
  maxRetries : Int
  backoffMs : Int
deriving DecidableEq, Repr

/-- Output specification of a task (`OutputSpec` in `dsl/types.ts`). -/
structure OutputSpec where
  storeAs : String
  format : String
deriving DecidableEq, Repr

/-- A workflow task (`Task` in `dsl/types.ts`). -/
structure Task where
  name : String
  dependsOn : List String
  steps : List Step
  retry : RetryPolicy
  output : OutputSpec
deriving DecidableEq, Repr

/-- Workflow-level policy (`WorkflowPolicy` in `dsl/types.ts`). -/
structure WorkflowPolicy where
  maxConcurrentTasks : Int
  timeoutMs : Int
  failFast : Bool
deriving DecidableEq, Repr

/-- A workflow (`BrowserWorkflow` in `dsl/types.ts`). -/
structure BrowserWorkflow where
  name : String
  tasks : List Task
  policy : WorkflowPolicy
deriving DecidableEq, Repr

/-! ## Dependency scheduler (`Scheduler.plan` in `browser/policy/policy.ts`)

The source builds `taskMap = new Map(tasks.map(t => [t.name, t]))` and
iterates over the undone name set, selecting tasks whose dependencies are all
completed.  We model the map lookup as a first-match search over the task
list and the initial key set as `tasks.map Task.name`; under the data-model
invariant that task names are unique within a workflow (assumed as a
hypothesis of every scheduler theorem) this coincides with the JS `Map`. -/

/-- Lookup of `taskMap.get(name)`. -/
def findTask (tasks : List Task) (name : String) : Option Task :=
  tasks.find? (fun t => t.name == name)

/-- The check `task.dependsOn.every((d) => completed.has(d))`. -/
def depsMet (completed : List String) (t : Task) : Bool :=
  t.dependsOn.all (fun d => completed.contains d)

/-- One scan of the undone set: the tasks selected for the next batch, in
iteration order of `remaining`. -/
def readyTasks (tasks : List Task) (completed remaining : List String) :
    List Task :=
  remaining.filterMap (fun n =>
    match findTask tasks n with
    | some t => if depsMet completed t then some t else none
    | none => none)

/-- A scheduled batch (`ScheduledBatch` in `browser/policy/policy.ts`). -/
structure ScheduledBatch where
  tasks : List Task
deriving DecidableEq, Repr

/-- The `while (remaining.size > 0)` loop of `Scheduler.plan`.  On a stuck
iteration (no ready task while tasks remain) the source throws a
`Dependency cycle detected` error listing the remaining task names; we model
the throw as `Except.error remaining`. -/
def planLoop (tasks : List Task) (completed remaining : List String) :
    Except (List String) (List ScheduledBatch) :=
  if h0 : remaining.isEmpty then .ok []
  else
    let ready := readyTasks tasks completed remaining
    if h1 : ready.isEmpty then .error remaining
    else
      match planLoop tasks (completed ++ ready.map Task.name)
          (remaining.filter (fun n => !((ready.map Task.name).contains n))) with
      | .ok bs => .ok (⟨ready⟩ :: bs)
      | .error e => .error e
termination_by remaining.length
decreasing_by
  apply List.length_filter_lt_length_iff_exists.mpr
  have h1' : readyTasks tasks completed remaining ≠ [] := by
    simpa [List.isEmpty_iff] using h1
  obtain ⟨t, ht⟩ := List.exists_mem_of_ne_nil _ h1'
  obtain ⟨n, hn, hfn⟩ := List.mem_filterMap.mp ht
  refine ⟨n, hn, ?_⟩
  have hname : t.name = n := by
    cases hf : findTask tasks n with
    | none => simp [hf] at hfn
    | some u =>
      have hf2 : List.find? (fun t => t.name == n) tasks = some u := hf
      have hbeq : (u.name == n) = true := by simpa using List.find?_some hf2
      rw [hf] at hfn
      by_cases hd : depsMet completed u = true
      · simp [hd] at hfn
        exact hfn ▸ eq_of_beq hbeq
      · simp [hd] at hfn
  have hmem : n ∈ (readyTasks tasks completed remaining).map Task.name :=
    List.mem_map.mpr ⟨t, ht, hname⟩
  simp [List.contains, List.elem_iff, hmem]

/-- The scheduler entry point (`Scheduler.plan`). -/
def Scheduler.plan (workflow : BrowserWorkflow) :
    Except (List String) (List ScheduledBatch) :=
  planLoop workflow.tasks [] (workflow.tasks.map Task.name)

/-! ## The dependency relation of a workflow

These definitions formalise the vocabulary of the specification (dependency
paths and cycles); they are not part of the source code. -/

/-- The dependency edges leaving a task name: the `dependsOn` list of the
task carrying that name, or nothing when the name is undefined. -/
def depsOf (tasks : List Task) (n : String) : List String :=
  match findTask tasks n with
  | some t => t.dependsOn
  | none => []

/-- Bounded reachability along dependency edges: `reachableIn tasks k a b`
holds when some dependency path of length between 1 and `k` leads from `a`
to `b`. -/
def reachableIn (tasks : List Task) : Nat → String → String → Bool
  | 0, _, _ => false
  | k + 1, a, b => (depsOf tasks a).any (fun d => d == b || reachableIn tasks k d b)

/-- A task name participates in a dependency cycle when some dependency path
of positive length leads from it back to itself. -/
def InCycle (tasks : List Task) (n : String) : Prop :=
  ∃ k, reachableIn tasks k n n = true

/-! ## Reconciliation state machine (`engine/reconciler`) -/

/-- Task lifecycle states (`TaskState` in `engine/reconciler/states.ts`). -/
inductive TaskState
  | Pending
  | Scheduled
  | Running
  | Succeeded
  | Failed
  | Retrying
  | Escalated
deriving DecidableEq, Repr

/-- Rendering of a state used in thrown error messages. -/
def TaskState.toStr : TaskState → String
  | .Pending => "Pending"
  | .Scheduled => "Scheduled"
  | .Running => "Running"
  | .Succeeded => "Succeeded"
  | .Failed => "Failed"
  | .Retrying => "Retrying"
  | .Escalated => "Escalated"

/-- The `TERMINAL_STATES` set of `states.ts`. -/
def TERMINAL_STATES : List TaskState := [.Succeeded, .Escalated]

/-- Mutable status of a task (`TaskStatus` in `states.ts`). -/
structure TaskStatus where
  state : TaskState
  retryCount : Nat
  lastError : Option String
  updatedAt : Nat
deriving DecidableEq, Repr

/-- The `initialStatus()` constructor; `Date.now()` is passed in. -/
def initialStatus (now : Nat) : TaskStatus :=
  { state := .Pending, retryCount := 0, lastError := none, updatedAt := now }

/-- Result of one reconcile transition (`ReconcileResult`). -/
structure ReconcileResult where
  taskName : String
  previous : TaskState
  current : TaskState
  error : Option String
deriving DecidableEq, Repr

/-- First-match lookup in an insertion-ordered association list, the model
of `Map.get`. -/
def mapGet (m : List (String × TaskStatus)) (k : String) : Option TaskStatus :=
  (m.find? (fun p => p.fst == k)).map Prod.snd

/-- In-place update or append, the model of `Map.set`. -/
def mapSet (m : List (String × TaskStatus)) (k : String) (v : TaskStatus) :
    List (String × TaskStatus) :=
  match m with
  | [] => [(k, v)]
  | p :: rest => if p.fst == k then (k, v) :: rest else p :: mapSet rest k v

/-- The reconciler state: its `statuses` map. -/
structure Reconciler where
  statuses : List (String × TaskStatus)
deriving DecidableEq, Repr

/-- The reconciler `getStatus` query: plain map lookup, `undefined` when the
task was never registered. -/
def Reconciler.getStatus (r : Reconciler) (taskName : String) : Option TaskStatus :=
  mapGet r.statuses taskName

/-- The `register` operation: place the task in Pending state. -/
def Reconciler.register (r : Reconciler) (task : Task) (now : Nat) : Reconciler :=
  { statuses := mapSet r.statuses task.name (initialStatus now) }

/-- The private `requireStatus` helper: throws `Unknown task` when the name
was never registered. -/
def Reconciler.requireStatus (r : Reconciler) (taskName : String) :
    Except String TaskStatus :=
  match mapGet r.statuses taskName with
  | some s => .ok s
  | none => .error ("Unknown task: \"" ++ taskName ++ "\"")

/-- The private `transition` helper: check the expected source state, then
update state and `updatedAt`. -/
def Reconciler.transition (r : Reconciler) (taskName : String)
    (expectedFrom target : TaskState) (now : Nat) :
    Except String (Reconciler × ReconcileResult) :=
  match r.requireStatus taskName with
  | .error e => .error e
  | .ok status =>
    if status.state ≠ expectedFrom then
      .error ("Invalid transition for \"" ++ taskName ++ "\": expected \"" ++
        expectedFrom.toStr ++ "\", got \"" ++ status.state.toStr ++ "\"")
    else
      let status2 := { status with state := target, updatedAt := now }
      .ok ({ statuses := mapSet r.statuses taskName status2 },
        { taskName := taskName, previous := status.state, current := target,
          error := none })

/-- The `schedule` operation: Pending to Scheduled. -/
def Reconciler.schedule (r : Reconciler) (taskName : String) (now : Nat) :
    Except String (Reconciler × ReconcileResult) :=
  r.transition taskName .Pending .Scheduled now

/-- The `start` operation: Scheduled to Running. -/
def Reconciler.start (r : Reconciler) (taskName : String) (now : Nat) :
    Except String (Reconciler × ReconcileResult) :=
  r.transition taskName .Scheduled .Running now

/-- The `succeed` operation: Running to Succeeded. -/
def Reconciler.succeed (r : Reconciler) (taskName : String) (now : Nat) :
    Except String (Reconciler × ReconcileResult) :=
  r.transition taskName .Running .Succeeded now

/-- The `fail` operation: decides Retrying versus Escalated by comparing the
current `retryCount` to `task.retry.maxRetries`. -/
def Reconciler.fail (r : Reconciler) (taskName : String) (task : Task)
    (error : String) (now : Nat) :
    Except String (Reconciler × ReconcileResult) :=
  match r.requireStatus taskName with
  | .error e => .error e
  | .ok status =>
    if status.state ≠ .Running then
      .error ("Cannot fail task \"" ++ taskName ++ "\" in state \"" ++
        status.state.toStr ++ "\"")
    else if (status.retryCount : Int) < task.retry.maxRetries then
      let status2 :=
        { status with
          state := .Retrying,
          retryCount := status.retryCount + 1,
          lastError := some error,
          updatedAt := now }
      .ok ({ statuses := mapSet r.statuses taskName status2 },
        { taskName := taskName, previous := status.state, current := .Retrying,
          error := some error })
    else
      let status2 :=
        { status with
          state := .Escalated,
          lastError := some error,
          updatedAt := now }
      .ok ({ statuses := mapSet r.statuses taskName status2 },
        { taskName := taskName, previous := status.state, current := .Escalated,
          error := some error })

/-- The `retry` operation: Retrying back to Running. -/
def Reconciler.retry (r : Reconciler) (taskName : String) (now : Nat) :
    Except String (Reconciler × ReconcileResult) :=
  r.transition taskName .Retrying .Running now

/-- The `isTerminal` query: false for unknown tasks. -/
def Reconciler.isTerminal (r : Reconciler) (taskName : String) : Bool :=
  match mapGet r.statuses taskName with
  | some s => TERMINAL_STATES.contains s.state
  | none => false

/-- One reconciler call directed at a fixed task, with its `Date.now()`
value; used to reason about arbitrary operation sequences. -/
inductive ReconcilerOp
  | register (now : Nat)
  | schedule (now : Nat)
  | start (now : Nat)
  | succeed (now : Nat)
  | fail (error : String) (now : Nat)
  | retry (now : Nat)
deriving DecidableEq, Repr

/-- Apply one operation for the task `task`; a thrown `Except.error` leaves
the status map unchanged (the source throws before any mutation). -/
def applyOp (task : Task) (r : Reconciler) (op : ReconcilerOp) : Reconciler :=
  match op with
  | .register now => r.register task now
  | .schedule now =>
    match r.schedule task.name now with
    | .ok (r2, _) => r2
    | .error _ => r
  | .start now =>
    match r.start task.name now with
    | .ok (r2, _) => r2
    | .error _ => r
  | .succeed now =>
    match r.succeed task.name now with
    | .ok (r2, _) => r2
    | .error _ => r
  | .fail e now =>
    match r.fail task.name task e now with
    | .ok (r2, _) => r2
    | .error _ => r
  | .retry now =>
    match r.retry task.name now with
    | .ok (r2, _) => r2
    | .error _ => r

/-- Fold a sequence of operations over a reconciler. -/
def runOps (task : Task) (ops : List ReconcilerOp) (r : Reconciler) : Reconciler :=
  ops.foldl (applyOp task) r

/-! ## Kafka topic routing (`src/kafka/topics.ts`) -/

/-! The `TOPICS` constants of `topics.ts`. -/

namespace TOPICS

def MEASUREMENTS : String := "measurements"

def ALERTS : String := "alerts"

def ACTIONS : String := "actions"

def TASKS : String := "tasks"

def SESSIONS : String := "sessions"

def DETECTIONS : String := "detections"

def ANOMALIES : String := "anomalies"

def INSTRUMENT_COMMANDS : String := "instrument-commands"

end TOPICS

/-- The JavaScript `String.prototype.startsWith`, expressed on the character
lists of the two strings. -/
def strStartsWith (s pat : String) : Bool :=
  pat.toList.isPrefixOf s.toList

/-- The `resolveTopicName` helper: the configured topic name space is put in
front of the logical topic, separated by a dot. -/
def resolveTopicName (pre : String) (topic : String) : String :=
  pre ++ "." ++ topic

/-- The `eventTypeToTopic` routing table: first matching type-prefix rule
wins, anything unmatched goes to `measurements`. -/
def eventTypeToTopic (eventType : String) : String :=
  if strStartsWith eventType "instrument.measurement" then TOPICS.MEASUREMENTS
  else if strStartsWith eventType "instrument.alert" then TOPICS.ALERTS
  else if strStartsWith eventType "instrument.lifecycle" then TOPICS.INSTRUMENT_COMMANDS
  else if strStartsWith eventType "action." then TOPICS.ACTIONS
  else if strStartsWith eventType "task." then TOPICS.TASKS
  else if strStartsWith eventType "session." then TOPICS.SESSIONS
  else if strStartsWith eventType "detection." then TOPICS.DETECTIONS
  else if strStartsWith eventType "behavioral." then TOPICS.ANOMALIES
  else TOPICS.MEASUREMENTS

/-! ## Buffered event producer (`EventProducer` in `src/kafka/producer.ts`)

Only the flush path is embedded.  A buffered message is a resolved topic
together with an opaque transport message (the embedding never inspects the
message payload, so it is a type parameter).  The `await sendBatch` suspension
point is modelled by two explicit inputs: the outcome of the transport call
and the list of messages emitted while the call was in flight. -/

/-- A buffered message: resolved topic plus opaque transport message. -/
structure BufferedMessage (μ : Type) where
  topic : String
  message : μ
deriving DecidableEq, Repr

/-- Append a message to the entry of its topic, or open a new entry at the
end, mirroring insertion into the `byTopic` map. -/
def insertByTopic {μ : Type} (acc : List (String × List μ)) (topic : String)
    (msg : μ) : List (String × List μ) :=
  match acc with
  | [] => [(topic, [msg])]
  | (t, ms) :: rest =>
    if t == topic then (t, ms ++ [msg]) :: rest
    else (t, ms) :: insertByTopic rest topic msg

/-- The grouping loop of `flush`: group buffered messages by topic, keeping
first-seen topic order and per-topic message order. -/
def groupByTopic {μ : Type} (msgs : List (BufferedMessage μ)) :
    List (String × List μ) :=
  msgs.foldl (fun acc m => insertByTopic acc m.topic m.message) []

/-- Outcome of the `producer.sendBatch` transport call. -/
inductive SendOutcome
  | success
  | failure (err : String)
deriving DecidableEq, Repr

/-- Observable result of one `flush()` call. -/
structure FlushResult (μ : Type) where
  /-- The buffer after the call returns. -/
  buffer : List (BufferedMessage μ)
  /-- The topic-grouped batch handed to the transport (empty when no send
  was attempted). -/
  sent : List (String × List μ)
  /-- What the call reports to its caller. -/
  result : Except String Unit
deriving Repr

/-- The `flush()` method.  `buffer` is the buffer content at entry,
`inFlight` the messages emitted while the transport call was awaited, and
`outcome` the transport result.  On entry the source splices the whole
buffer out; on transport failure it puts the spliced messages back with
`unshift` (in front of anything emitted meanwhile) and rethrows. -/
def flushModel {μ : Type} (connected : Bool) (buffer inFlight : List (BufferedMessage μ))
    (outcome : SendOutcome) : FlushResult μ :=
  if buffer.isEmpty then { buffer := buffer ++ inFlight, sent := [], result := .ok () }
  else if !connected then { buffer := buffer ++ inFlight, sent := [], result := .ok () }
  else
    let messages := buffer
    let topicMessages := groupByTopic messages
    match outcome with
    | .success => { buffer := inFlight, sent := topicMessages, result := .ok () }
    | .failure err =>
      { buffer := messages ++ inFlight, sent := topicMessages,
        result := .error err }

/-! ## Probe severity (`InstrumentFactory` in `src/observability/tracer.ts`) -/

/-- Severity of a probe result. -/
inductive Severity
  | trace
  | info
  | warn
  | critical
deriving DecidableEq, Repr

/-- Severity that an alert condition may escalate to (`"warn" | "critical"`
in `AlertCondition`). -/
inductive AlertSeverity
  | warn
  | critical
deriving DecidableEq, Repr

/-- Coercion of an alert severity into a probe severity. -/
def AlertSeverity.toSeverity : AlertSeverity → Severity
  | .warn => .warn
  | .critical => .critical

/-- Model of a JavaScript value as stored in the measured `data` record.
Floating point numbers are abstracted to integers. -/
inductive JsValue
  | nullV
  | undef
  | num (n : Int)
  | str (s : String)
  | boolean (b : Bool)
deriving DecidableEq, Repr

/-- The JavaScript `String(value)` coercion on the modelled value domain. -/
def jsToString : JsValue → String
  | .nullV => "null"
  | .undef => "undefined"
  | .num n => toString n
  | .str s => s
  | .boolean b => if b then "true" else "false"

/-- The JavaScript `String.prototype.includes` substring test. -/
def strContains (s sub : String) : Bool :=
  s.toList.tails.any (fun t => sub.toList.isPrefixOf t)

/-- The comparison operator of an alert condition. -/
inductive AlertOperator
  | gt
  | lt
  | eq
  | neq
  | contains
  | regex
deriving DecidableEq, Repr

/-- An alert condition (`AlertCondition` in `src/types/index.ts`). -/
structure AlertCondition where
  field : String
  operator : AlertOperator
  threshold : JsValue
  severity : AlertSeverity
  message : String
deriving DecidableEq, Repr

/-- A measured data record, modelled as an association list. -/
abbrev DataRecord : Type := List (String × JsValue)

/-- Lookup of `data[field]`. -/
def lookupField (data : DataRecord) (field : String) : Option JsValue :=
  (data.find? (fun p => p.fst == field)).map Prod.snd

/-- Read a digit sequence in the given base, `none` when empty or when any
character is not a digit of the base. -/
def digitsToNat (base : Nat) (digit : Char → Option Nat) (ds : List Char) :
    Option Nat :=
  if ds.isEmpty then none
  else
    ds.foldl (fun acc c =>
      match acc, digit c with
      | some a, some v => some (a * base + v)
      | _, _ => none) (some 0)

/-- A decimal digit. -/
def decDigit (c : Char) : Option Nat :=
  if c.isDigit then some (c.toNat - '0'.toNat) else none

/-- A hexadecimal digit. -/
def hexDigit (c : Char) : Option Nat :=
  if c.isDigit then some (c.toNat - '0'.toNat)
  else if 'a' ≤ c ∧ c ≤ 'f' then some (c.toNat - 'a'.toNat + 10)
  else if 'A' ≤ c ∧ c ≤ 'F' then some (c.toNat - 'A'.toNat + 10)
  else none

/-- An octal digit. -/
def octDigit (c : Char) : Option Nat :=
  if '0' ≤ c ∧ c ≤ '7' then some (c.toNat - '0'.toNat) else none

/-- A binary digit. -/
def binDigit (c : Char) : Option Nat :=
  if c = '0' then some 0 else if c = '1' then some 1 else none

/-- The JavaScript `StringToNumber` conversion, restricted to the part of
the string-number grammar whose value is always an integer: optional
whitespace around an optionally signed decimal digit sequence, or an
unsigned `0x`/`0o`/`0b` literal (the JavaScript whitespace set is
abstracted to the Lean one).  The empty or all-whitespace string is 0.
`none` models NaN, covering non-numeric strings; fraction, exponent and
`Infinity` forms can denote values outside the integer abstraction of
JavaScript numbers declared at the top of this file and are also mapped to
`none`. -/
def strToNumber (s : String) : Option Int :=
  match (s.toList.dropWhile Char.isWhitespace).reverse.dropWhile
      Char.isWhitespace |>.reverse with
  | [] => some 0
  | '+' :: ds => (digitsToNat 10 decDigit ds).map (fun n => (n : Int))
  | '-' :: ds => (digitsToNat 10 decDigit ds).map (fun n => -(n : Int))
  | '0' :: 'x' :: ds => (digitsToNat 16 hexDigit ds).map (fun n => (n : Int))
  | '0' :: 'X' :: ds => (digitsToNat 16 hexDigit ds).map (fun n => (n : Int))
  | '0' :: 'o' :: ds => (digitsToNat 8 octDigit ds).map (fun n => (n : Int))
  | '0' :: 'O' :: ds => (digitsToNat 8 octDigit ds).map (fun n => (n : Int))
  | '0' :: 'b' :: ds => (digitsToNat 2 binDigit ds).map (fun n => (n : Int))
  | '0' :: 'B' :: ds => (digitsToNat 2 binDigit ds).map (fun n => (n : Int))
  | ds => (digitsToNat 10 decDigit ds).map (fun n => (n : Int))

/-- The JavaScript `ToNumber` coercion on the modelled value domain:
`null` is 0, booleans are 0 and 1, `undefined` is NaN (`none`), numbers
are themselves, strings go through `strToNumber`. -/
def jsToNumber : JsValue → Option Int
  | .nullV => some 0
  | .undef => none
  | .num n => some n
  | .boolean b => some (if b then 1 else 0)
  | .str s => strToNumber s

/-- Lexicographic order on character lists. -/
def charListLt : List Char → List Char → Bool
  | [], [] => false
  | [], _ :: _ => true
  | _ :: _, [] => false
  | a :: as, b :: bs =>
    if a < b then true else if b < a then false else charListLt as bs

/-- The JavaScript abstract relational comparison `x < y`, as performed by
the `<` and `>` operators: when both operands are strings they compare
lexicographically (code-unit order, abstracted here to code-point order),
otherwise both are coerced with `ToNumber` and compared numerically, any
NaN making the comparison false. -/
def jsLessThan (x y : JsValue) : Bool :=
  match x, y with
  | .str a, .str b => charListLt a.toList b.toList
  | _, _ =>
    match jsToNumber x, jsToNumber y with
    | some a, some b => decide (a < b)
    | _, _ => false

/-- The `triggered` computation of `buildAlertCheck`.  The `gt`/`lt`
branches evaluate the JavaScript comparisons `value > threshold` and
`value < threshold` (the `as number` casts in the source are type
assertions with no runtime effect, so JavaScript coercion applies);
`x > y` is the relational comparison `y < x`.  Regular-expression matching
is done by an external engine and enters as the oracle `regexTest pat s`. -/
def alertTriggered (regexTest : String → String → Bool)
    (condition : AlertCondition) (value : JsValue) : Bool :=
  match condition.operator with
  | .gt => jsLessThan condition.threshold value
  | .lt => jsLessThan value condition.threshold
  | .eq => decide (value = condition.threshold)
  | .neq => decide (value ≠ condition.threshold)
  | .contains => strContains (jsToString value) (jsToString condition.threshold)
  | .regex => regexTest (jsToString condition.threshold) (jsToString value)

/-- One compiled alert check (`buildAlertCheck`): `none` when the field is
absent, `null` or `undefined`, or when the comparison does not hold;
otherwise the severity of the condition. -/
def buildAlertCheck (regexTest : String → String → Bool)
    (condition : AlertCondition) (data : DataRecord) : Option AlertSeverity :=
  let value := (lookupField data condition.field).getD .undef
  if value = .nullV ∨ value = .undef then none
  else if alertTriggered regexTest condition value then some condition.severity
  else none

/-- The severity folding loop of `buildProbe.measure`: start at `trace`,
escalate to `warn` on a warn check, stop at the first `critical`. -/
def severityLoop (regexTest : String → String → Bool) (data : DataRecord) :
    List AlertCondition → Severity → Severity
  | [], sev => sev
  | c :: cs, sev =>
    match buildAlertCheck regexTest c data with
    | some .critical => .critical
    | some .warn =>
      severityLoop regexTest data cs (if sev ≠ .critical then .warn else sev)
    | none => severityLoop regexTest data cs sev

/-- Severity of a probe result over the measured data, as computed by the
`measure` function built by `buildProbe`. -/
def computeSeverity (regexTest : String → String → Bool)
    (conditions : List AlertCondition) (data : DataRecord) : Severity :=
  severityLoop regexTest data conditions .trace

/-! ## Step executor (`BrowserExecutor` in the executor module)

The puppeteer page handle is opaque in the source (`page: unknown`); it is
modelled as a record of oracle functions, one per page operation the
executor uses.  An `Except.error` value of an oracle is a rejected promise
carrying the message of the thrown error. -/

/-- A located DOM element handle, as used by `extract`. -/
structure Element where
  getAttribute : String → Option String
  textContent : Option String

/-- The page operations used by `dispatch`: `goto`, `waitForSelector`,
`click`, and the element query `page.$`. -/
structure Page where
  goto : String → Except String Unit
  waitForSelector : String → Int → Except String Unit
  click : String → Except String Unit
  query : String → Option Element

/-- Result of one step execution (`StepResult`). -/
structure StepResult where
  step : Step
  success : Bool
  durationMs : Int
  data : Option (List (String × Option String))
  error : Option String

/-- One extracted field: `node.getAttribute(attr) ?? node.textContent`. -/
def elValue (el : Element) (attr : String) : Option String :=
  match el.getAttribute attr with
  | some v => some v
  | none => el.textContent

/-- The private `extract` helper: fail when the selector matches nothing,
otherwise read every schema field. -/
def extractData (page : Page) (selector : String) (schema : Schema) :
    Except String (List (String × Option String)) :=
  match page.query selector with
  | none => .error ("Element not found: " ++ selector)
  | some el => .ok (schema.fields.map (fun f => (f.name, elValue el f.name)))

/-- The private `dispatch` helper, exhaustive over the step variants. -/
def dispatch (page : Page) (step : Step) :
    Except String (Option (List (String × Option String))) :=
  match step with
  | .navigate url => (page.goto url).map (fun _ => none)
  | .waitFor selector timeoutMs =>
    (page.waitForSelector selector timeoutMs).map (fun _ => none)
  | .click selector => (page.click selector).map (fun _ => none)
  | .extract selector schema => (extractData page selector schema).map some

/-- The public `execute` method: wrap `dispatch` in try/catch and report the
outcome in-band.  `t0` and `t1` are the entry and exit `Date.now()` values.
Totality of this function is the never-throws guarantee: every oracle
outcome yields a `StepResult`. -/
def BrowserExecutor.execute (page : Page) (step : Step) (t0 t1 : Int) : StepResult :=
  match dispatch page step with
  | .ok data =>
    { step := step, success := true, durationMs := t1 - t0, data := data,
      error := none }
  | .error err =>
    { step := step, success := false, durationMs := t1 - t0, data := none,
      error := some err }

/-! ## Instrument registry (`InstrumentRegistry` in `src/instruments/registry.ts`) -/

/-- Lifecycle phases of an instrument (`InstrumentPhase`). -/
inductive InstrumentPhase
  | before_action
  | after_action
  | during_idle
  | on_navigation
  | on_error
  | continuous
deriving DecidableEq, Repr

/-- An instrument, restricted to the fields `getForPhase` reads. -/
structure Instrument where
  id : String
  name : String
  kind : String
  phase : InstrumentPhase
  actionFilter : List String
  enabled : Bool
  priority : Int
deriving DecidableEq, Repr

/-- The skip test of the `getForPhase` loop for the action filter.  In the
source it reads `instrument.actionFilter.length > 0 && actionType &&
!instrument.actionFilter.includes(actionType)`; a JavaScript string is
truthy exactly when it is non-empty. -/
def actionFilterSkips (inst : Instrument) (actionType : Option String) : Bool :=
  decide (inst.actionFilter.length > 0) &&
    (match actionType with
     | some a => !(a == "") && !(inst.actionFilter.contains a)
     | none => false)

/-- The `getForPhase` query: enabled instruments whose phase matches the
requested phase or is `continuous`, not skipped by the action filter,
sorted ascending by priority.  The registry map is modelled as its values
in insertion order; `Array.prototype.sort` is a stable sort, modelled by
`mergeSort`. -/
def InstrumentRegistry.getForPhase (instruments : List Instrument)
    (phase : InstrumentPhase) (actionType : Option String) : List Instrument :=
  (instruments.filter (fun inst =>
    inst.enabled && (inst.phase == phase || inst.phase == .continuous) &&
      !(actionFilterSkips inst actionType))).mergeSort
    (fun a b => a.priority ≤ b.priority)

/-! ## Concrete inputs used to instantiate the proved properties -/

/-- A task named `A` with no dependencies. -/
def exTaskA : Task := ⟨"A", [], [], ⟨0, 0⟩, ⟨"", ""⟩⟩

/-- A task named `B` depending on `A`. -/
def exTaskB : Task := ⟨"B", ["A"], [], ⟨0, 0⟩, ⟨"", ""⟩⟩

/-- An acyclic two-task workflow: `B` after `A`. -/
def exChain : BrowserWorkflow := ⟨"chain", [exTaskA, exTaskB], ⟨1, 0, false⟩⟩

/-- Task `A` of a two-cycle: depends on `B`. -/
def cycTaskA : Task := ⟨"A", ["B"], [], ⟨0, 0⟩, ⟨"", ""⟩⟩

/-- Task `B` of a two-cycle: depends on `A`. -/
def cycTaskB : Task := ⟨"B", ["A"], [], ⟨0, 0⟩, ⟨"", ""⟩⟩

/-- Task `C`, downstream of the cycle but on no cycle itself. -/
def cycTaskC : Task := ⟨"C", ["A"], [], ⟨0, 0⟩, ⟨"", ""⟩⟩

/-- A workflow whose two tasks form a dependency cycle. -/
def cycPair : BrowserWorkflow := ⟨"cyc", [cycTaskA, cycTaskB], ⟨1, 0, false⟩⟩

/-- A workflow with a two-task cycle plus a third task hanging off it. -/
def cycTriple : BrowserWorkflow :=
  ⟨"cyc3", [cycTaskA, cycTaskB, cycTaskC], ⟨1, 0, false⟩⟩

/-- A task allowing one retry. -/
def exRetryTask : Task := ⟨"t", [], [], ⟨1, 10⟩, ⟨"out", "json"⟩⟩

/-- A reconciler holding `exRetryTask` in Running state. -/
def exRunningRec : Reconciler := ⟨[("t", ⟨.Running, 0, none, 0⟩)]⟩

/-- A register/schedule/start/fail/retry/fail history for `exRetryTask`. -/
def exOps : List ReconcilerOp :=
  [.register 0, .schedule 1, .start 2, .fail "x" 3, .retry 4, .fail "y" 5]

/-- An enabled instrument with no action filter. -/
def exInstrument : Instrument :=
  ⟨"i1", "inst", "timing", .before_action, [], true, 10⟩

/-! ## Lemmas about the status map -/

theorem mapGet_mapSet_self (m : List (String × TaskStatus)) (k : String)
    (v : TaskStatus) : mapGet (mapSet m k v) k = some v := by
  induction m with
  | nil => simp [mapGet, mapSet]
  | cons p rest ih =>
    by_cases h : p.fst == k
    · simp [mapGet, mapSet, h]
    · simp only [mapSet, h, Bool.false_eq_true, if_false]
      simpa [mapGet, List.find?, h] using ih

theorem requireStatus_of_get {r : Reconciler} {name : String} {st : TaskStatus}
    (h : mapGet r.statuses name = some st) :
    r.requireStatus name = .ok st := by
  simp [Reconciler.requireStatus, h]

theorem requireStatus_of_none {r : Reconciler} {name : String}
    (h : mapGet r.statuses name = none) :
    r.requireStatus name = .error ("Unknown task: \"" ++ name ++ "\"") := by
  simp [Reconciler.requireStatus, h]

/-- C3.  A registered task observed in Running state reacts to `fail` as
the transition table prescribes: below the retry budget it moves to
Retrying with `retryCount` incremented by one and the error recorded; at or
above the budget it moves to Escalated with `retryCount` unchanged and the
error recorded.  `updatedAt` takes the current clock in both branches. -/
theorem reconciler_fail_spec (r : Reconciler) (name : String) (task : Task)
    (e : String) (now : Nat) (st : TaskStatus)
    (hget : r.getStatus name = some st) (hrun : st.state = .Running) :
    ∃ r2 res, r.fail name task e now = .ok (r2, res) ∧
      (((st.retryCount : Int) < task.retry.maxRetries →
        r2.getStatus name = some
          { st with
            state := .Retrying,
            retryCount := st.retryCount + 1,
            lastError := some e,
            updatedAt := now } ∧
          res.current = .Retrying) ∧
       (task.retry.maxRetries ≤ (st.retryCount : Int) →
        r2.getStatus name = some
          { st with
            state := .Escalated,
            lastError := some e,
            updatedAt := now } ∧
          res.current = .Escalated)) := by
  have hreq : r.requireStatus name = .ok st := requireStatus_of_get hget
  by_cases hlt : (st.retryCount : Int) < task.retry.maxRetries
  · refine ⟨⟨mapSet r.statuses name
      { st with
        state := .Retrying,
        retryCount := st.retryCount + 1,
        lastError := some e,
        updatedAt := now }⟩,
      ⟨name, st.state, .Retrying, some e⟩, ?_, ?_, ?_⟩
    · simp [Reconciler.fail, hreq, hrun, hlt]
    · intro _
      exact ⟨by simp [Reconciler.getStatus, mapGet_mapSet_self], rfl⟩
    · intro hge
      exact absurd hlt (not_lt.mpr hge)
  · refine ⟨⟨mapSet r.statuses name
      { st with
        state := .Escalated,
        lastError := some e,
        updatedAt := now }⟩,
      ⟨name, st.state, .Escalated, some e⟩, ?_, ?_, ?_⟩
    · simp [Reconciler.fail, hreq, hrun, hlt]
    · intro h
      exact absurd h hlt
    · intro _
      exact ⟨by simp [Reconciler.getStatus, mapGet_mapSet_self], rfl⟩

/-- Witness for C3: a Running task with no failures yet and a budget of one
retry moves to Retrying on `fail`. -/
theorem reconciler_fail_spec_witness :
    ∃ r2 res,
      Reconciler.fail exRunningRec "t" exRetryTask "boom" 7 = .ok (r2, res) ∧
        r2.getStatus "t" =
          some { state := .Retrying, retryCount := 1, lastError := some "boom",
                 updatedAt := 7 } ∧
        res.current = .Retrying := by
  obtain ⟨r2, res, hok, hlt, -⟩ :=
    reconciler_fail_spec exRunningRec "t" exRetryTask "boom" 7
      ⟨.Running, 0, none, 0⟩ rfl rfl
  obtain ⟨hst, hcur⟩ := hlt (by decide)
  exact ⟨r2, res, hok, hst, hcur⟩

/-- Case analysis of the private `transition` helper. -/
theorem transition_ok_or_error (r : Reconciler) (name : String)
    (efrom target : TaskState) (now : Nat) :
    (∃ msg, r.transition name efrom target now = .error msg) ∨
    (∃ st0, mapGet r.statuses name = some st0 ∧ st0.state = efrom ∧
      r.transition name efrom target now =
        .ok (⟨mapSet r.statuses name
                { st0 with state := target, updatedAt := now }⟩,
             ⟨name, st0.state, target, none⟩)) := by
  cases hg : mapGet r.statuses name with
  | none =>
    refine Or.inl ⟨"Unknown task: \"" ++ name ++ "\"", ?_⟩
    simp [Reconciler.transition, requireStatus_of_none hg]
  | some st0 =>
    by_cases hs : st0.state = efrom
    · refine Or.inr ⟨st0, rfl, hs, ?_⟩
      simp [Reconciler.transition, requireStatus_of_get hg, hs]
    · refine Or.inl ⟨"Invalid transition for \"" ++ name ++ "\": expected \"" ++
        efrom.toStr ++ "\", got \"" ++ st0.state.toStr ++ "\"", ?_⟩
      simp [Reconciler.transition, requireStatus_of_get hg, hs]

/-- Case analysis of the `fail` operation. -/
theorem fail_ok_or_error (r : Reconciler) (name : String) (task : Task)
    (e : String) (now : Nat) :
    (∃ msg, r.fail name task e now = .error msg) ∨
    (∃ st0, mapGet r.statuses name = some st0 ∧ st0.state = .Running ∧
      (((st0.retryCount : Int) < task.retry.maxRetries ∧
        r.fail name task e now =
          .ok (⟨mapSet r.statuses name
                  { st0 with
                    state := .Retrying,
                    retryCount := st0.retryCount + 1,
                    lastError := some e,
                    updatedAt := now }⟩,
               ⟨name, st0.state, .Retrying, some e⟩)) ∨
       (task.retry.maxRetries ≤ (st0.retryCount : Int) ∧
        r.fail name task e now =
          .ok (⟨mapSet r.statuses name
                  { st0 with
                    state := .Escalated,
                    lastError := some e,
                    updatedAt := now }⟩,
               ⟨name, st0.state, .Escalated, some e⟩)))) := by
  cases hg : mapGet r.statuses name with
  | none =>
    refine Or.inl ⟨"Unknown task: \"" ++ name ++ "\"", ?_⟩
    simp [Reconciler.fail, requireStatus_of_none hg]
  | some st0 =>
    by_cases hs : st0.state = .Running
    · by_cases hlt : (st0.retryCount : Int) < task.retry.maxRetries
      · refine Or.inr ⟨st0, rfl, hs, Or.inl ⟨hlt, ?_⟩⟩
        simp [Reconciler.fail, requireStatus_of_get hg, hs, hlt]
      · refine Or.inr ⟨st0, rfl, hs, Or.inr ⟨not_lt.mp hlt, ?_⟩⟩
        simp [Reconciler.fail, requireStatus_of_get hg, hs, hlt]
    · refine Or.inl ⟨"Cannot fail task \"" ++ name ++ "\" in state \"" ++
        st0.state.toStr ++ "\"", ?_⟩
      simp [Reconciler.fail, requireStatus_of_get hg, hs]

/-- Every way one operation can change the status a later lookup of the
task observes. -/
theorem applyOp_lookup (task : Task) (r : Reconciler) (op : ReconcilerOp)
    (st : TaskStatus)
    (h : mapGet (applyOp task r op).statuses task.name = some st) :
    mapGet r.statuses task.name = some st ∨
    (∃ now, op = .register now ∧ st = initialStatus now) ∨
    (∃ st0 target now, mapGet r.statuses task.name = some st0 ∧
      st = { st0 with state := target, updatedAt := now } ∧
      (target = .Scheduled ∨ target = .Running ∨ target = .Succeeded)) ∨
    (∃ st0 e now, op = .fail e now ∧ mapGet r.statuses task.name = some st0 ∧
      st0.state = .Running ∧
      (((st0.retryCount : Int) < task.retry.maxRetries ∧
        st = { st0 with
               state := .Retrying,
               retryCount := st0.retryCount + 1,
               lastError := some e,
               updatedAt := now }) ∨
       (task.retry.maxRetries ≤ (st0.retryCount : Int) ∧
        st = { st0 with
               state := .Escalated,
               lastError := some e,
               updatedAt := now }))) := by
  cases op with
  | register now =>
    simp only [applyOp, Reconciler.register] at h
    rw [mapGet_mapSet_self] at h
    exact Or.inr (Or.inl ⟨now, rfl, (Option.some.inj h).symm⟩)
  | schedule now =>
    simp only [applyOp, Reconciler.schedule] at h
    rcases transition_ok_or_error r task.name .Pending .Scheduled now with
      ⟨msg, heq⟩ | ⟨st0, hg, hs, heq⟩
    · rw [heq] at h
      exact Or.inl h
    · rw [heq] at h
      rw [mapGet_mapSet_self] at h
      exact Or.inr (Or.inr (Or.inl
        ⟨st0, .Scheduled, now, hg, (Option.some.inj h).symm, Or.inl rfl⟩))
  | start now =>
    simp only [applyOp, Reconciler.start] at h
    rcases transition_ok_or_error r task.name .Scheduled .Running now with
      ⟨msg, heq⟩ | ⟨st0, hg, hs, heq⟩
    · rw [heq] at h
      exact Or.inl h
    · rw [heq] at h
      rw [mapGet_mapSet_self] at h
      exact Or.inr (Or.inr (Or.inl
        ⟨st0, .Running, now, hg, (Option.some.inj h).symm, Or.inr (Or.inl rfl)⟩))
  | succeed now =>
    simp only [applyOp, Reconciler.succeed] at h
    rcases transition_ok_or_error r task.name .Running .Succeeded now with
      ⟨msg, heq⟩ | ⟨st0, hg, hs, heq⟩
    · rw [heq] at h
      exact Or.inl h
    · rw [heq] at h
      rw [mapGet_mapSet_self] at h
      exact Or.inr (Or.inr (Or.inl
        ⟨st0, .Succeeded, now, hg, (Option.some.inj h).symm,
          Or.inr (Or.inr rfl)⟩))
  | retry now =>
    simp only [applyOp, Reconciler.retry] at h
    rcases transition_ok_or_error r task.name .Retrying .Running now with
      ⟨msg, heq⟩ | ⟨st0, hg, hs, heq⟩
    · rw [heq] at h
      exact Or.inl h
    · rw [heq] at h
      rw [mapGet_mapSet_self] at h
      exact Or.inr (Or.inr (Or.inl
        ⟨st0, .Running, now, hg, (Option.some.inj h).symm, Or.inr (Or.inl rfl)⟩))
  | fail e now =>
    simp only [applyOp] at h
    rcases fail_ok_or_error r task.name task e now with
      ⟨msg, heq⟩ | ⟨st0, hg, hs, hcase⟩
    · rw [heq] at h
      exact Or.inl h
    · rcases hcase with ⟨hlt, heq⟩ | ⟨hge, heq⟩
      · rw [heq] at h
        rw [mapGet_mapSet_self] at h
        exact Or.inr (Or.inr (Or.inr
          ⟨st0, e, now, rfl, hg, hs, Or.inl ⟨hlt, (Option.some.inj h).symm⟩⟩))
      · rw [heq] at h
        rw [mapGet_mapSet_self] at h
        exact Or.inr (Or.inr (Or.inr
          ⟨st0, e, now, rfl, hg, hs, Or.inr ⟨hge, (Option.some.inj h).symm⟩⟩))

/-- One operation preserves the retry bound. -/
theorem applyOp_retry_le (task : Task) (hmax : 0 ≤ task.retry.maxRetries)
    (r : Reconciler) (op : ReconcilerOp)
    (hinv : ∀ st, mapGet r.statuses task.name = some st →
      (st.retryCount : Int) ≤ task.retry.maxRetries) :
    ∀ st, mapGet (applyOp task r op).statuses task.name = some st →
      (st.retryCount : Int) ≤ task.retry.maxRetries := by
  intro st h
  rcases applyOp_lookup task r op st h with
    h1 | ⟨now, -, hst⟩ | ⟨st0, tg, now, hg, hst, -⟩ |
    ⟨st0, e, now, -, hg, -, hcase⟩
  · exact hinv st h1
  · subst hst
    simpa [initialStatus] using hmax
  · subst hst
    simpa using hinv st0 hg
  · rcases hcase with ⟨hlt, hst⟩ | ⟨hge, hst⟩
    · subst hst
      simp only []
      push_cast
      omega
    · subst hst
      simpa using hinv st0 hg

/-- Operation sequences preserve the retry bound. -/
theorem runOps_retry_le (task : Task) (hmax : 0 ≤ task.retry.maxRetries) :
    ∀ (ops : List ReconcilerOp) (r : Reconciler),
      (∀ st, mapGet r.statuses task.name = some st →
        (st.retryCount : Int) ≤ task.retry.maxRetries) →
      ∀ st, mapGet (runOps task ops r).statuses task.name = some st →
        (st.retryCount : Int) ≤ task.retry.maxRetries := by
  intro ops
  induction ops with
  | nil => exact fun r hinv st h => hinv st h
  | cons op ops ih =>
    intro r hinv st h
    exact ih (applyOp task r op) (applyOp_retry_le task hmax r op hinv) st h

/-- C4.  Over any operation history against a fixed task definition with a
non-negative retry budget, the retry count observed for that task never
exceeds `maxRetries`, and a lookup can turn up a Retrying state only
because it was already Retrying or because the operation was a `fail` whose
pre-call retry count was strictly below `maxRetries`. -/
theorem reconciler_retry_invariant (task : Task)
    (hmax : 0 ≤ task.retry.maxRetries) :
    (∀ (ops : List ReconcilerOp) (st : TaskStatus),
      mapGet (runOps task ops ⟨[]⟩).statuses task.name = some st →
      (st.retryCount : Int) ≤ task.retry.maxRetries) ∧
    (∀ (r : Reconciler) (op : ReconcilerOp) (st2 : TaskStatus),
      mapGet (applyOp task r op).statuses task.name = some st2 →
      st2.state = .Retrying →
      (∃ st, mapGet r.statuses task.name = some st ∧ st.state = .Retrying) ∨
      (∃ st e now, op = .fail e now ∧ mapGet r.statuses task.name = some st ∧
        st.state = .Running ∧
        (st.retryCount : Int) < task.retry.maxRetries)) := by
  constructor
  · intro ops st h
    refine runOps_retry_le task hmax ops ⟨[]⟩ ?_ st h
    intro st0 h0
    simp [mapGet] at h0
  · intro r op st2 h hret
    rcases applyOp_lookup task r op st2 h with
      h1 | ⟨now, -, hst⟩ | ⟨st0, tg, now, hg, hst, htg⟩ |
      ⟨st0, e, now, hop, hg, hrun, hcase⟩
    · exact Or.inl ⟨st2, h1, hret⟩
    · subst hst
      simp [initialStatus] at hret
    · subst hst
      simp only [] at hret
      rcases htg with rfl | rfl | rfl <;> simp at hret
    · rcases hcase with ⟨hlt, hst⟩ | ⟨hge, hst⟩
      · exact Or.inr ⟨st0, e, now, hop, hg, hrun, hlt⟩
      · subst hst
        simp at hret

/-- Witness for C4: after register, schedule, start, a first failure, a
retry and a second failure against a budget of one retry, the task sits in
Escalated with `retryCount = 1`, within the bound. -/
theorem reconciler_retry_invariant_witness :
    mapGet (runOps exRetryTask exOps ⟨[]⟩).statuses "t" =
      some ⟨.Escalated, 1, some "y", 5⟩ ∧
    ((1 : Nat) : Int) ≤ exRetryTask.retry.maxRetries := by
  refine ⟨by decide, ?_⟩
  have h := (reconciler_retry_invariant exRetryTask (by decide)).1 exOps
    ⟨.Escalated, 1, some "y", 5⟩ (by decide)
  simpa using h

/-- C9 (amended).  Operations that must consult the status of an unknown
task name fail with the `Unknown task` error: `requireStatus` and all five
transition operations.  The query methods `getStatus` and `isTerminal` do
not fail: they return `undefined` (here `none`) and `false`. -/
theorem reconciler_unknown_task (r : Reconciler) (name : String)
    (h : mapGet r.statuses name = none) (task : Task) (e : String) (now : Nat) :
    r.getStatus name = none ∧
    r.isTerminal name = false ∧
    r.requireStatus name = .error ("Unknown task: \"" ++ name ++ "\"") ∧
    r.schedule name now = .error ("Unknown task: \"" ++ name ++ "\"") ∧
    r.start name now = .error ("Unknown task: \"" ++ name ++ "\"") ∧
    r.succeed name now = .error ("Unknown task: \"" ++ name ++ "\"") ∧
    r.fail name task e now = .error ("Unknown task: \"" ++ name ++ "\"") ∧
    r.retry name now = .error ("Unknown task: \"" ++ name ++ "\"") := by
  have hreq := requireStatus_of_none h
  refine ⟨?_, ?_, hreq, ?_, ?_, ?_, ?_, ?_⟩
  · simp [Reconciler.getStatus, h]
  · simp [Reconciler.isTerminal, h]
  · simp [Reconciler.schedule, Reconciler.transition, hreq]
  · simp [Reconciler.start, Reconciler.transition, hreq]
  · simp [Reconciler.succeed, Reconciler.transition, hreq]
  · simp [Reconciler.fail, hreq]
  · simp [Reconciler.retry, Reconciler.transition, hreq]

/-- Witness for C9 (amended): the empty reconciler at name `ghost`. -/
theorem reconciler_unknown_task_witness :
    Reconciler.requireStatus ⟨[]⟩ "ghost" =
      .error ("Unknown task: \"" ++ "ghost" ++ "\"") ∧
    Reconciler.isTerminal ⟨[]⟩ "ghost" = false :=
  ⟨(reconciler_unknown_task ⟨[]⟩ "ghost" rfl exTaskA "e" 0).2.2.1,
   (reconciler_unknown_task ⟨[]⟩ "ghost" rfl exTaskA "e" 0).2.1⟩

/-- Counterexample to C9 as stated: querying an unregistered task through
`getStatus` does not fail with an `UnknownTask` error; it returns
`undefined` (here `none`), and `isTerminal` likewise returns `false`
instead of failing. -/
theorem reconciler_query_unknown_counterexample :
    Reconciler.getStatus ⟨[]⟩ "ghost" = none ∧
    Reconciler.isTerminal ⟨[]⟩ "ghost" = false := by
  exact ⟨rfl, rfl⟩

/-! ## Topic routing theorems -/

/-- Two type prefixes whose first characters differ cannot both match the
same event type. -/
theorem strStartsWith_false {s p q : String} {a b : Char}
    (hp : p.toList.head? = some a) (hq : q.toList.head? = some b)
    (hne : a ≠ b) (hsp : strStartsWith s p = true) :
    strStartsWith s q = false := by
  by_contra hcon
  have hsq : strStartsWith s q = true := by
    cases hval : strStartsWith s q
    · exact absurd hval hcon
    · rfl
  unfold strStartsWith at hsp hsq
  obtain ⟨t1, ht1⟩ := List.isPrefixOf_iff_prefix.mp hsp
  obtain ⟨t2, ht2⟩ := List.isPrefixOf_iff_prefix.mp hsq
  have ha : s.toList.head? = some a := by
    rw [← ht1, List.head?_append, hp]
    rfl
  have hb : s.toList.head? = some b := by
    rw [← ht2, List.head?_append, hq]
    rfl
  rw [ha] at hb
  exact hne (Option.some.inj hb)

/-- Counterexample to C5 as stated: an event of type `workflow.started` is
not routed to the `tasks` topic; no routing rule matches the `workflow.`
prefix, so it falls through to the default `measurements` topic. -/
theorem workflow_event_topic_counterexample :
    eventTypeToTopic "workflow.started" = TOPICS.MEASUREMENTS ∧
    eventTypeToTopic "workflow.started" ≠ TOPICS.TASKS := by
  constructor
  · decide
  · decide

/-- C5 (amended).  Every event whose type begins with `workflow.` matches
none of the routing rules of `eventTypeToTopic` and is assigned the default
`measurements` topic, not `tasks`, before the configurable topic name is
applied. -/
theorem workflow_event_routes_to_measurements (ty : String)
    (h : strStartsWith ty "workflow." = true) :
    eventTypeToTopic ty = TOPICS.MEASUREMENTS := by
  have h1 : strStartsWith ty "instrument.measurement" = false :=
    strStartsWith_false (a := 'w') (b := 'i') (by decide) (by decide) (by decide) h
  have h2 : strStartsWith ty "instrument.alert" = false :=
    strStartsWith_false (a := 'w') (b := 'i') (by decide) (by decide) (by decide) h
  have h3 : strStartsWith ty "instrument.lifecycle" = false :=
    strStartsWith_false (a := 'w') (b := 'i') (by decide) (by decide) (by decide) h
  have h4 : strStartsWith ty "action." = false :=
    strStartsWith_false (a := 'w') (b := 'a') (by decide) (by decide) (by decide) h
  have h5 : strStartsWith ty "task." = false :=
    strStartsWith_false (a := 'w') (b := 't') (by decide) (by decide) (by decide) h
  have h6 : strStartsWith ty "session." = false :=
    strStartsWith_false (a := 'w') (b := 's') (by decide) (by decide) (by decide) h
  have h7 : strStartsWith ty "detection." = false :=
    strStartsWith_false (a := 'w') (b := 'd') (by decide) (by decide) (by decide) h
  have h8 : strStartsWith ty "behavioral." = false :=
    strStartsWith_false (a := 'w') (b := 'b') (by decide) (by decide) (by decide) h
  simp [eventTypeToTopic, h1, h2, h3, h4, h5, h6, h7, h8]

/-- Witness for C5 (amended) at the concrete type `workflow.finished`. -/
theorem workflow_event_routes_witness :
    strStartsWith "workflow.finished" "workflow." = true ∧
    eventTypeToTopic "workflow.finished" = TOPICS.MEASUREMENTS :=
  ⟨by decide, workflow_event_routes_to_measurements "workflow.finished" (by decide)⟩

/-! ## Producer flush theorems -/

/-- C6.  When the transport rejects a batch, the flush puts every spliced
message back at the head of the buffer, in original order and ahead of
anything emitted while the send was in flight, and reports the failure to
its caller.  Nothing is dropped or reordered. -/
theorem producer_flush_failure_requeue {μ : Type}
    (b e : List (BufferedMessage μ)) (err : String) (hb : b ≠ []) :
    (flushModel true b e (.failure err)).buffer = b ++ e ∧
    (flushModel true b e (.failure err)).result = .error err := by
  have hb' : b.isEmpty = false := List.isEmpty_eq_false.mpr hb
  constructor <;> simp [flushModel, hb']

/-- Witness for C6: one rejected message is back in front of one message
emitted during the failed send, and the failure is reported. -/
theorem producer_flush_failure_requeue_witness :
    (flushModel true [⟨"t", (1 : Nat)⟩] [⟨"u", 2⟩] (.failure "boom")).buffer =
      [⟨"t", 1⟩, ⟨"u", 2⟩] ∧
    (flushModel true [⟨"t", (1 : Nat)⟩] [⟨"u", 2⟩] (.failure "boom")).result =
      .error "boom" := by
  have h := producer_flush_failure_requeue [⟨"t", (1 : Nat)⟩] [⟨"u", 2⟩]
    "boom" (by simp)
  simpa using h

/-! ## Instrument registry theorems -/

/-- C10.  `getForPhase` returns exactly the enabled instruments whose phase
is the requested one or `continuous`, sorted ascending by priority; an
instrument with a non-empty action filter is excluded only when an action
type is supplied and missing from the filter, and with no action type every
enabled phase-matching instrument is returned. -/
theorem registry_getForPhase_spec (instruments : List Instrument)
    (phase : InstrumentPhase) (actionType : Option String) :
    (∀ inst ∈ InstrumentRegistry.getForPhase instruments phase actionType,
      inst ∈ instruments ∧ inst.enabled = true ∧
        (inst.phase = phase ∨ inst.phase = .continuous)) ∧
    (∀ inst ∈ instruments, inst.enabled = true →
      (inst.phase = phase ∨ inst.phase = .continuous) → actionType = none →
      inst ∈ InstrumentRegistry.getForPhase instruments phase actionType) ∧
    (∀ inst ∈ instruments, inst.enabled = true →
      (inst.phase = phase ∨ inst.phase = .continuous) →
      inst.actionFilter = [] →
      inst ∈ InstrumentRegistry.getForPhase instruments phase actionType) ∧
    (∀ inst ∈ instruments, inst.enabled = true →
      (inst.phase = phase ∨ inst.phase = .continuous) →
      (∀ a, actionType = some a → a ∈ inst.actionFilter) →
      inst ∈ InstrumentRegistry.getForPhase instruments phase actionType) ∧
    (∀ inst ∈ instruments, inst.enabled = true →
      (inst.phase = phase ∨ inst.phase = .continuous) →
      inst ∉ InstrumentRegistry.getForPhase instruments phase actionType →
      ∃ a, actionType = some a ∧ inst.actionFilter ≠ [] ∧
        a ∉ inst.actionFilter) ∧
    (InstrumentRegistry.getForPhase instruments phase actionType).Pairwise
      (fun x y => x.priority ≤ y.priority) := by
  have hmem : ∀ inst : Instrument,
      inst ∈ InstrumentRegistry.getForPhase instruments phase actionType ↔
        inst ∈ instruments ∧
          (inst.enabled &&
            (inst.phase == phase || inst.phase == InstrumentPhase.continuous) &&
            !(actionFilterSkips inst actionType)) = true := by
    intro inst
    rw [InstrumentRegistry.getForPhase, List.mem_mergeSort, List.mem_filter]
  refine ⟨?_, ?_, ?_, ?_, ?_, ?_⟩
  · intro inst hin
    obtain ⟨hmem1, hpred⟩ := (hmem inst).mp hin
    refine ⟨hmem1, ?_, ?_⟩
    · simp only [Bool.and_eq_true] at hpred
      exact hpred.1.1
    · simp only [Bool.and_eq_true, Bool.or_eq_true, beq_iff_eq] at hpred
      exact hpred.1.2
  · intro inst hin hen hph hnone
    refine (hmem inst).mpr ⟨hin, ?_⟩
    subst hnone
    simp [hen, actionFilterSkips]
    rcases hph with h | h <;> simp [h]
  · intro inst hin hen hph hfil
    refine (hmem inst).mpr ⟨hin, ?_⟩
    simp [hen, actionFilterSkips, hfil]
    rcases hph with h | h <;> simp [h]
  · intro inst hin hen hph hact
    refine (hmem inst).mpr ⟨hin, ?_⟩
    have hskip : actionFilterSkips inst actionType = false := by
      cases hao : actionType with
      | none => simp [actionFilterSkips]
      | some a =>
        have ha : a ∈ inst.actionFilter := hact a hao
        simp [actionFilterSkips, List.elem_iff, ha, List.contains]
    simp [hen, hskip]
    rcases hph with h | h <;> simp [h]
  · intro inst hin hen hph hnotin
    have hpred : (inst.enabled &&
        (inst.phase == phase || inst.phase == InstrumentPhase.continuous) &&
        !(actionFilterSkips inst actionType)) = false := by
      cases hval : (inst.enabled &&
          (inst.phase == phase || inst.phase == InstrumentPhase.continuous) &&
          !(actionFilterSkips inst actionType)) with
      | false => rfl
      | true => exact absurd ((hmem inst).mpr ⟨hin, hval⟩) hnotin
    have hphb : (inst.phase == phase || inst.phase == InstrumentPhase.continuous) = true := by
      rcases hph with h | h <;> simp [h]
    rw [hen, hphb] at hpred
    simp only [Bool.true_and, Bool.not_eq_false'] at hpred
    unfold actionFilterSkips at hpred
    cases hao : actionType with
    | none => simp [hao] at hpred
    | some a =>
      rw [hao] at hpred
      simp only [Bool.and_eq_true, decide_eq_true_eq, Bool.not_eq_true'] at hpred
      refine ⟨a, rfl, ?_, ?_⟩
      · intro hnil
        rw [hnil] at hpred
        simp at hpred
      · intro hmem2
        have : inst.actionFilter.contains a = true := by
          simp [List.contains, List.elem_iff, hmem2]
        rw [this] at hpred
        simp at hpred
  · have htrans : ∀ a b c : Instrument,
        (decide (a.priority ≤ b.priority)) = true →
        (decide (b.priority ≤ c.priority)) = true →
        (decide (a.priority ≤ c.priority)) = true := by
      intro a b c hab hbc
      simp only [decide_eq_true_eq] at *
      omega
    have htotal : ∀ a b : Instrument,
        ((decide (a.priority ≤ b.priority)) ||
          (decide (b.priority ≤ a.priority))) = true := by
      intro a b
      simp only [Bool.or_eq_true, decide_eq_true_eq]
      omega
    have h := List.sorted_mergeSort htrans htotal
      (instruments.filter (fun inst =>
        inst.enabled && (inst.phase == phase || inst.phase == .continuous) &&
          !(actionFilterSkips inst actionType)))
    refine List.Pairwise.imp ?_ h
    intro a b hab
    simpa using hab

/-- Witness for C10: a single enabled before-action instrument with no
filter is returned for its phase with no action type supplied. -/
theorem registry_getForPhase_spec_witness :
    exInstrument ∈ InstrumentRegistry.getForPhase [exInstrument]
      .before_action none := by
  exact (registry_getForPhase_spec [exInstrument] .before_action none).2.1
    exInstrument (List.mem_singleton.mpr rfl) rfl (Or.inl rfl) rfl

/-! ## Step executor theorems -/

/-- C8 (amended).  `execute` is total over every oracle behaviour of the
page (the never-throws guarantee); a successful dispatch yields
`success = true` with the dispatched data, a failing dispatch yields
`success = false` with the error message of the failure (which is empty
exactly when the thrown error carried an empty message); `extract` maps
every schema field to the same-named attribute with inner-text fallback and
fails when the selector matches nothing. -/
theorem executor_execute_reports_in_band (page : Page) (step : Step)
    (t0 t1 : Int) :
    (∀ d, dispatch page step = .ok d →
      BrowserExecutor.execute page step t0 t1 =
        { step := step, success := true, durationMs := t1 - t0, data := d,
          error := none }) ∧
    (∀ msg, dispatch page step = .error msg →
      BrowserExecutor.execute page step t0 t1 =
        { step := step, success := false, durationMs := t1 - t0, data := none,
          error := some msg }) ∧
    (∀ selector schema el, step = .extract selector schema →
      page.query selector = some el →
      dispatch page step =
        .ok (some (schema.fields.map (fun f => (f.name, elValue el f.name))))) ∧
    (∀ selector schema, step = .extract selector schema →
      page.query selector = none →
      dispatch page step = .error ("Element not found: " ++ selector)) := by
  refine ⟨?_, ?_, ?_, ?_⟩
  · intro d hd
    simp [BrowserExecutor.execute, hd]
  · intro msg hmsg
    simp [BrowserExecutor.execute, hmsg]
  · intro selector schema el hstep hq
    subst hstep
    simp [dispatch, extractData, hq, Except.map]
  · intro selector schema hstep hq
    subst hstep
    simp [dispatch, extractData, hq, Except.map]

/-- Witness for C8 (amended): a navigation whose page operation rejects
with message `net::ERR` is reported in-band. -/
theorem executor_execute_witness :
    BrowserExecutor.execute
      ⟨fun _ => .error "net::ERR", fun _ _ => .ok (), fun _ => .ok (),
        fun _ => none⟩
      (.navigate "https://x") 0 5 =
      { step := .navigate "https://x", success := false, durationMs := 5,
        data := none, error := some "net::ERR" } := by
  exact (executor_execute_reports_in_band
    ⟨fun _ => .error "net::ERR", fun _ _ => .ok (), fun _ => .ok (),
      fun _ => none⟩
    (.navigate "https://x") 0 5).2.1 "net::ERR" rfl

/-- Counterexample to C8 as stated: a page operation that rejects with an
empty message yields `success = false` with an empty, not non-empty, error
string. -/
theorem executor_empty_error_counterexample :
    (BrowserExecutor.execute
      ⟨fun _ => .error "", fun _ _ => .ok (), fun _ => .ok (), fun _ => none⟩
      (.navigate "https://x") 0 0).success = false ∧
    (BrowserExecutor.execute
      ⟨fun _ => .error "", fun _ _ => .ok (), fun _ => .ok (), fun _ => none⟩
      (.navigate "https://x") 0 0).error = some "" ∧
    ("" : String).length = 0 := by
  exact ⟨rfl, rfl, rfl⟩

/-! ## Probe severity theorems -/

/-- The coercing comparison agrees with JavaScript on mixed-type operands:
`true > 0`, `"10" > 9` and `5 > null` trigger, `"b" > "a"` is lexicographic,
and comparisons against `undefined` (NaN) are false. -/
theorem jsLessThan_coercion_examples :
    jsLessThan (.num 0) (.boolean true) = true ∧
    jsLessThan (.num 9) (.str "10") = true ∧
    jsLessThan (.str "a") (.str "b") = true ∧
    jsLessThan .nullV (.num 5) = true ∧
    jsLessThan (.undef) (.num 5) = false ∧
    jsLessThan (.num 5) (.undef) = false := by
  decide

/-- The severity loop reaches `critical` exactly when some remaining check
fires critical, provided the accumulator is not already critical. -/
theorem severityLoop_critical (rt : String → String → Bool) (data : DataRecord)
    (cs : List AlertCondition) (sev : Severity) (hsev : sev ≠ .critical) :
    severityLoop rt data cs sev = .critical ↔
      ∃ c ∈ cs, buildAlertCheck rt c data = some .critical := by
  induction cs generalizing sev with
  | nil =>
    simp only [severityLoop, List.not_mem_nil, false_and, exists_false,
      iff_false]
    exact hsev
  | cons c cs ih =>
    cases hc : buildAlertCheck rt c data with
    | none =>
      have hstep : severityLoop rt data (c :: cs) sev =
          severityLoop rt data cs sev := by
        simp [severityLoop, hc]
      rw [hstep, ih sev hsev]
      simp [hc]
    | some a =>
      cases a with
      | critical =>
        have hstep : severityLoop rt data (c :: cs) sev = .critical := by
          simp [severityLoop, hc]
        rw [hstep]
        simp [hc]
      | warn =>
        have hstep : severityLoop rt data (c :: cs) sev =
            severityLoop rt data cs .warn := by
          simp [severityLoop, hc, hsev]
        rw [hstep, ih .warn (by simp)]
        simp [hc]

/-- The severity loop ends at `warn` exactly when no remaining check fires
critical and either the accumulator is already `warn` or some check fires
warn. -/
theorem severityLoop_warn (rt : String → String → Bool) (data : DataRecord)
    (cs : List AlertCondition) (sev : Severity)
    (hsev : sev = .trace ∨ sev = .warn) :
    severityLoop rt data cs sev = .warn ↔
      ((¬ ∃ c ∈ cs, buildAlertCheck rt c data = some .critical) ∧
        (sev = .warn ∨ ∃ c ∈ cs, buildAlertCheck rt c data = some .warn)) := by
  induction cs generalizing sev with
  | nil => simp [severityLoop]
  | cons c cs ih =>
    have hsev' : sev ≠ .critical := by rcases hsev with rfl | rfl <;> simp
    cases hc : buildAlertCheck rt c data with
    | none =>
      have hstep : severityLoop rt data (c :: cs) sev =
          severityLoop rt data cs sev := by
        simp [severityLoop, hc]
      rw [hstep, ih sev hsev]
      simp [hc]
    | some a =>
      cases a with
      | critical =>
        have hstep : severityLoop rt data (c :: cs) sev = .critical := by
          simp [severityLoop, hc]
        rw [hstep]
        simp [hc]
      | warn =>
        have hstep : severityLoop rt data (c :: cs) sev =
            severityLoop rt data cs .warn := by
          simp [severityLoop, hc, hsev']
        rw [hstep, ih .warn (Or.inr rfl)]
        simp [hc]

/-- The severity loop ends at `trace` exactly when it started there and no
remaining check fires at all. -/
theorem severityLoop_trace (rt : String → String → Bool) (data : DataRecord)
    (cs : List AlertCondition) (sev : Severity) (hsev : sev ≠ .critical) :
    severityLoop rt data cs sev = .trace ↔
      (sev = .trace ∧ ∀ c ∈ cs, buildAlertCheck rt c data = none) := by
  induction cs generalizing sev with
  | nil => simp [severityLoop]
  | cons c cs ih =>
    cases hc : buildAlertCheck rt c data with
    | none =>
      have hstep : severityLoop rt data (c :: cs) sev =
          severityLoop rt data cs sev := by
        simp [severityLoop, hc]
      rw [hstep, ih sev hsev]
      constructor
      · rintro ⟨h1, h2⟩
        refine ⟨h1, ?_⟩
        intro x hx
        rcases List.mem_cons.mp hx with rfl | hx2
        · exact hc
        · exact h2 x hx2
      · rintro ⟨h1, h2⟩
        exact ⟨h1, fun x hx => h2 x (List.mem_cons_of_mem c hx)⟩
    | some a =>
      cases a with
      | critical =>
        have hstep : severityLoop rt data (c :: cs) sev = .critical := by
          simp [severityLoop, hc]
        rw [hstep]
        constructor
        · intro h
          exact absurd h (by simp)
        · rintro ⟨-, h2⟩
          have := h2 c (List.mem_cons_self c cs)
          rw [hc] at this
          exact absurd this (by simp)
      | warn =>
        have hstep : severityLoop rt data (c :: cs) sev =
            severityLoop rt data cs .warn := by
          simp [severityLoop, hc, hsev]
        rw [hstep, ih .warn (by simp)]
        constructor
        · rintro ⟨h1, -⟩
          exact absurd h1 (by simp)
        · rintro ⟨-, h2⟩
          have := h2 c (List.mem_cons_self c cs)
          rw [hc] at this
          exact absurd this (by simp)

/-- C7.  The severity of a built probe is `critical` exactly when some
alert condition fires at severity critical, `warn` exactly when none fires
critical but some fires warn, and `trace` exactly when none fires at all; a
condition whose field is absent, `null` or `undefined`, or whose operator
comparison fails, contributes nothing, and a firing condition contributes
exactly its declared severity. -/
theorem probe_severity_spec (rt : String → String → Bool)
    (conds : List AlertCondition) (data : DataRecord) :
    (computeSeverity rt conds data = .critical ↔
      ∃ c ∈ conds, buildAlertCheck rt c data = some .critical) ∧
    (computeSeverity rt conds data = .warn ↔
      ((¬ ∃ c ∈ conds, buildAlertCheck rt c data = some .critical) ∧
        ∃ c ∈ conds, buildAlertCheck rt c data = some .warn)) ∧
    (computeSeverity rt conds data = .trace ↔
      ∀ c ∈ conds, buildAlertCheck rt c data = none) ∧
    (∀ c : AlertCondition,
      (lookupField data c.field = none ∨
        lookupField data c.field = some .nullV ∨
        lookupField data c.field = some .undef) →
      buildAlertCheck rt c data = none) ∧
    (∀ c : AlertCondition,
      alertTriggered rt c ((lookupField data c.field).getD .undef) = false →
      buildAlertCheck rt c data = none) ∧
    (∀ (c : AlertCondition) (v : JsValue),
      lookupField data c.field = some v → v ≠ .nullV → v ≠ .undef →
      alertTriggered rt c v = true →
      buildAlertCheck rt c data = some c.severity) := by
  refine ⟨?_, ?_, ?_, ?_, ?_, ?_⟩
  · exact severityLoop_critical rt data conds .trace (by simp)
  · rw [computeSeverity, severityLoop_warn rt data conds .trace (Or.inl rfl)]
    simp
  · rw [computeSeverity, severityLoop_trace rt data conds .trace (by simp)]
    simp
  · intro c hc
    rcases hc with hc | hc | hc <;> simp [buildAlertCheck, hc]
  · intro c htrig
    by_cases hnull : ((lookupField data c.field).getD .undef) = .nullV ∨
        ((lookupField data c.field).getD .undef) = .undef
    · simp [buildAlertCheck, hnull]
    · simp [buildAlertCheck, hnull, htrig]
  · intro c v hv hnull hundef htrig
    simp [buildAlertCheck, hv, hnull, hundef, htrig]

/-- Witness for C7: a probe with one critical greater-than condition over a
measurement exceeding the threshold reports severity critical. -/
theorem probe_severity_spec_witness :
    computeSeverity (fun _ _ => false)
      [⟨"x", .gt, .num 5, .critical, "m"⟩] [("x", .num 10)] = .critical := by
  exact ((probe_severity_spec (fun _ _ => false)
    [⟨"x", .gt, .num 5, .critical, "m"⟩] [("x", .num 10)]).1).mpr
    ⟨⟨"x", .gt, .num 5, .critical, "m"⟩, by simp, by decide⟩


/-! ## Scheduler lemmas -/

/-- Characterisation of `findTask` success. -/
theorem findTask_some {tasks : List Task} {n : String} {t : Task}
    (h : findTask tasks n = some t) : t.name = n ∧ t ∈ tasks := by
  have h2 : List.find? (fun u => u.name == n) tasks = some t := h
  exact ⟨by simpa using List.find?_some h2, List.mem_of_find?_eq_some h2⟩

/-- Every listed task name has a task behind it. -/
theorem findTask_isSome {tasks : List Task} {n : String}
    (h : n ∈ tasks.map Task.name) : ∃ t, findTask tasks n = some t := by
  obtain ⟨t, ht, rfl⟩ := List.mem_map.mp h
  have h2 : (List.find? (fun u => u.name == t.name) tasks).isSome = true :=
    List.find?_isSome.mpr ⟨t, ht, by simp⟩
  exact Option.isSome_iff_exists.mp h2

/-- Membership in a scanned batch. -/
theorem mem_readyTasks {tasks : List Task} {completed remaining : List String}
    {t : Task} :
    t ∈ readyTasks tasks completed remaining ↔
      ∃ n ∈ remaining, findTask tasks n = some t ∧
        depsMet completed t = true := by
  constructor
  · intro ht
    obtain ⟨n, hn, hfn⟩ := List.mem_filterMap.mp ht
    cases hf : findTask tasks n with
    | none => simp [hf] at hfn
    | some u =>
      by_cases hd : depsMet completed u = true
      · simp only [hf, hd, if_true] at hfn
        obtain rfl := Option.some.inj hfn
        exact ⟨n, hn, hf, hd⟩
      · simp [hf, hd] at hfn
  · rintro ⟨n, hn, hf, hd⟩
    apply List.mem_filterMap.mpr
    exact ⟨n, hn, by simp [hf, hd]⟩

/-- Unfolding equation of the scheduling loop. -/
theorem planLoop_eq (tasks : List Task) (completed remaining : List String) :
    planLoop tasks completed remaining =
      if remaining.isEmpty then .ok []
      else
        if (readyTasks tasks completed remaining).isEmpty then .error remaining
        else
          match planLoop tasks
              (completed ++ (readyTasks tasks completed remaining).map Task.name)
              (remaining.filter (fun n =>
                !(((readyTasks tasks completed remaining).map Task.name).contains n))) with
          | .ok bs => .ok (⟨readyTasks tasks completed remaining⟩ :: bs)
          | .error e => .error e := by
  rw [planLoop]
  simp only [dite_eq_ite]

/-- The loop on an empty undone set. -/
theorem planLoop_empty {tasks : List Task} {completed remaining : List String}
    (h : remaining.isEmpty = true) :
    planLoop tasks completed remaining = .ok [] := by
  rw [planLoop_eq, if_pos h]

/-- The loop on a stuck iteration. -/
theorem planLoop_stuck {tasks : List Task} {completed remaining : List String}
    (h0 : remaining.isEmpty = false)
    (h1 : readyTasks tasks completed remaining = []) :
    planLoop tasks completed remaining = .error remaining := by
  rw [planLoop_eq]
  simp [h0, h1]

/-- The loop on a productive iteration. -/
theorem planLoop_step {tasks : List Task} {completed remaining : List String}
    (h0 : remaining.isEmpty = false)
    (h1 : readyTasks tasks completed remaining ≠ []) :
    planLoop tasks completed remaining =
      match planLoop tasks
          (completed ++ (readyTasks tasks completed remaining).map Task.name)
          (remaining.filter (fun n =>
            !(((readyTasks tasks completed remaining).map Task.name).contains n))) with
      | .ok bs => .ok (⟨readyTasks tasks completed remaining⟩ :: bs)
      | .error e => .error e := by
  rw [planLoop_eq]
  rw [if_neg (by simp [h0])]
  rw [if_neg (by simp [List.isEmpty_eq_false.mpr h1])]

/-! ## Reachability lemmas -/

/-- Reachability is monotone in the fuel. -/
theorem reachableIn_mono (tasks : List Task) :
    ∀ (k : Nat) (a b : String), reachableIn tasks k a b = true →
      reachableIn tasks (k + 1) a b = true := by
  intro k
  induction k with
  | zero => intro a b h; simp [reachableIn] at h
  | succ k ih =>
    intro a b h
    rw [reachableIn] at h
    rw [reachableIn]
    rw [List.any_eq_true] at h
    rw [List.any_eq_true]
    obtain ⟨d, hd, hdb⟩ := h
    refine ⟨d, hd, ?_⟩
    rw [Bool.or_eq_true] at hdb
    rw [Bool.or_eq_true]
    rcases hdb with h1 | h2
    · exact Or.inl h1
    · exact Or.inr (ih d b h2)

/-- A path can be extended by one dependency edge at its end. -/
theorem reachableIn_snoc (tasks : List Task) :
    ∀ (k : Nat) (a b d : String), reachableIn tasks k a b = true →
      d ∈ depsOf tasks b → reachableIn tasks (k + 1) a d = true := by
  intro k
  induction k with
  | zero => intro a b d h _; simp [reachableIn] at h
  | succ k ih =>
    intro a b d h hd
    rw [reachableIn] at h
    rw [List.any_eq_true] at h
    obtain ⟨e, he, heb⟩ := h
    rw [Bool.or_eq_true] at heb
    rw [reachableIn, List.any_eq_true]
    rcases heb with h1 | h2
    · have heb2 : e = b := eq_of_beq h1
      refine ⟨e, he, ?_⟩
      rw [Bool.or_eq_true]
      right
      subst heb2
      rw [reachableIn, List.any_eq_true]
      exact ⟨d, hd, by simp⟩
    · refine ⟨e, he, ?_⟩
      rw [Bool.or_eq_true]
      exact Or.inr (ih e b d h2 hd)

/-- Every cycle participant has a dependency that is itself a cycle
participant. -/
theorem InCycle_dep {tasks : List Task} {n : String} (h : InCycle tasks n) :
    ∃ d ∈ depsOf tasks n, InCycle tasks d := by
  obtain ⟨k, hk⟩ := id h
  cases k with
  | zero => simp [reachableIn] at hk
  | succ k =>
    rw [reachableIn, List.any_eq_true] at hk
    obtain ⟨d, hd, hdn⟩ := hk
    rw [Bool.or_eq_true] at hdn
    rcases hdn with h1 | h2
    · have hdn2 : d = n := eq_of_beq h1
      exact ⟨d, hd, hdn2 ▸ h⟩
    · exact ⟨d, hd, ⟨k + 1, reachableIn_snoc tasks k d n d h2 hd⟩⟩

/-- Every cycle participant is the name of a defined task. -/
theorem InCycle_mem {tasks : List Task} {n : String} (h : InCycle tasks n) :
    n ∈ tasks.map Task.name := by
  obtain ⟨d, hd, -⟩ := InCycle_dep h
  unfold depsOf at hd
  cases hf : findTask tasks n with
  | none => rw [hf] at hd; simp at hd
  | some t =>
    obtain ⟨hname, hmem⟩ := findTask_some hf
    exact List.mem_map.mpr ⟨t, hmem, hname⟩

/-! ## Cycle detection (C2) -/

/-- When the workflow contains a cycle, the loop must end in the stuck
branch, and the error names every cycle participant: cycle participants can
never become ready, so they stay in the undone set until the throw. -/
theorem planLoop_cycle (tasks : List Task) :
    ∀ (len : Nat) (remaining completed : List String),
      remaining.length = len →
      (∀ n, InCycle tasks n → n ∈ remaining) →
      (∀ n, InCycle tasks n → n ∉ completed) →
      (∃ n0, InCycle tasks n0) →
      ∃ r, planLoop tasks completed remaining = .error r ∧
        ∀ n, InCycle tasks n → n ∈ r := by
  intro len
  induction len using Nat.strong_induction_on with
  | _ len ih =>
    intro remaining completed hlen hrem hcomp hex
    obtain ⟨n0, hn0⟩ := hex
    have hne : remaining ≠ [] := by
      intro hnil
      have := hrem n0 hn0
      rw [hnil] at this
      simp at this
    have h0 : remaining.isEmpty = false := List.isEmpty_eq_false.mpr hne
    have hcycready : ∀ n, InCycle tasks n →
        n ∉ (readyTasks tasks completed remaining).map Task.name := by
      intro n hcyc hmem
      obtain ⟨t, ht, htn⟩ := List.mem_map.mp hmem
      obtain ⟨m, hm, hf, hd⟩ := mem_readyTasks.mp ht
      obtain ⟨hname, -⟩ := findTask_some hf
      have hfn : findTask tasks n = some t := by
        have hmn : m = n := by
          rw [← hname]
          exact htn
        rw [← hmn]
        exact hf
      obtain ⟨d, hdin, hdcyc⟩ := InCycle_dep hcyc
      have hdeps : depsOf tasks n = t.dependsOn := by
        unfold depsOf
        rw [hfn]
      rw [hdeps] at hdin
      have hall := List.all_eq_true.mp hd d hdin
      have hdc : d ∈ completed := by
        simpa [List.contains, List.elem_iff] using hall
      exact hcomp d hdcyc hdc
    by_cases hready : readyTasks tasks completed remaining = []
    · exact ⟨remaining, planLoop_stuck h0 hready, hrem⟩
    · have hlt : (remaining.filter (fun n =>
          !(((readyTasks tasks completed remaining).map Task.name).contains n))).length <
          remaining.length := by
        apply List.length_filter_lt_length_iff_exists.mpr
        obtain ⟨t, ht⟩ := List.exists_mem_of_ne_nil _ hready
        obtain ⟨m, hm, hf, hd⟩ := mem_readyTasks.mp ht
        obtain ⟨hname, -⟩ := findTask_some hf
        refine ⟨m, hm, ?_⟩
        have hmm : m ∈ (readyTasks tasks completed remaining).map Task.name :=
          List.mem_map.mpr ⟨t, ht, hname⟩
        simp [List.contains, List.elem_iff, hmm]
      have hrem2 : ∀ n, InCycle tasks n → n ∈ remaining.filter (fun n =>
          !(((readyTasks tasks completed remaining).map Task.name).contains n)) := by
        intro n hcyc
        refine List.mem_filter.mpr ⟨hrem n hcyc, ?_⟩
        have := hcycready n hcyc
        simp [List.contains, List.elem_iff, this]
      have hcomp2 : ∀ n, InCycle tasks n →
          n ∉ completed ++ (readyTasks tasks completed remaining).map Task.name := by
        intro n hcyc hmem
        rcases List.mem_append.mp hmem with h | h
        · exact hcomp n hcyc h
        · exact hcycready n hcyc h
      obtain ⟨r, hr, hprop⟩ := ih _ (hlen ▸ hlt) _ _ rfl hrem2 hcomp2 ⟨n0, hn0⟩
      refine ⟨r, ?_, hprop⟩
      rw [planLoop_step h0 hready, hr]

/-- C2 (amended).  Every workflow whose dependency relation has a cycle
makes `plan` fail with the cycle-detected error, and every cycle
participant is named in it.  The error may also name tasks that are not on
any cycle (tasks stuck behind one); see the counterexample. -/
theorem scheduler_plan_cycle_detect (w : BrowserWorkflow)
    (h : ∃ n, InCycle w.tasks n) :
    ∃ r, Scheduler.plan w = .error r ∧
      ∀ n, InCycle w.tasks n → n ∈ r :=
  planLoop_cycle w.tasks (w.tasks.map Task.name).length
    (w.tasks.map Task.name) [] rfl
    (fun _ hn => InCycle_mem hn) (fun n _ hmem => by simp at hmem) h

/-- Witness for C2 (amended): the two-task cycle. -/
theorem scheduler_plan_cycle_detect_witness :
    ∃ r, Scheduler.plan cycPair = .error r ∧
      ∀ n, InCycle cycPair.tasks n → n ∈ r :=
  scheduler_plan_cycle_detect cycPair ⟨"A", 2, by decide⟩

/-- Counterexample to C2 as stated: in the workflow with tasks `A ↔ B` and
`C → A`, the error names `C` although `C` participates in no dependency
cycle; the named set is the whole stuck remainder, not exactly the cycle
participants. -/
theorem scheduler_cycle_error_counterexample :
    Scheduler.plan cycTriple = .error ["A", "B", "C"] ∧
    "C" ∈ ["A", "B", "C"] ∧
    ¬ InCycle cycTriple.tasks "C" := by
  have hAB : ∀ k, reachableIn cycTriple.tasks k "A" "C" = false ∧
      reachableIn cycTriple.tasks k "B" "C" = false := by
    intro k
    induction k with
    | zero => exact ⟨rfl, rfl⟩
    | succ k ih =>
      constructor
      · rw [reachableIn]
        have hd : depsOf cycTriple.tasks "A" = ["B"] := rfl
        rw [hd]
        simp [ih.2]
      · rw [reachableIn]
        have hd : depsOf cycTriple.tasks "B" = ["A"] := rfl
        rw [hd]
        simp [ih.1]
  refine ⟨?_, ?_, ?_⟩
  · have hstuck : readyTasks cycTriple.tasks []
        (cycTriple.tasks.map Task.name) = [] := by decide
    have h := @planLoop_stuck cycTriple.tasks [] (cycTriple.tasks.map Task.name)
      rfl hstuck
    exact h
  · simp
  · rintro ⟨k, hk⟩
    cases k with
    | zero => simp [reachableIn] at hk
    | succ k =>
      rw [reachableIn] at hk
      have hd : depsOf cycTriple.tasks "C" = ["A"] := rfl
      rw [hd] at hk
      simp [(hAB k).1] at hk

/-! ## Acyclic planning (C1) -/

/-- A finite nonempty set of names in which every member has a dependency
staying in the set contains a cycle participant (follow successors and
apply the pigeonhole principle). -/
theorem exists_cycle_of_succ (tasks : List Task) (rem : List String)
    (hne : rem ≠ [])
    (hsucc : ∀ n ∈ rem, ∃ d ∈ depsOf tasks n, d ∈ rem) :
    ∃ n, InCycle tasks n := by
  classical
  have hsucc2 : ∀ n : String, ∃ d, n ∈ rem → d ∈ depsOf tasks n ∧ d ∈ rem := by
    intro n
    by_cases hn : n ∈ rem
    · obtain ⟨d, hd1, hd2⟩ := hsucc n hn
      exact ⟨d, fun _ => ⟨hd1, hd2⟩⟩
    · exact ⟨n, fun h => absurd h hn⟩
  choose f hf using hsucc2
  obtain ⟨n0, hn0⟩ := List.exists_mem_of_ne_nil _ hne
  have hgrem : ∀ k, f^[k] n0 ∈ rem := by
    intro k
    induction k with
    | zero => exact hn0
    | succ k ih =>
      rw [Function.iterate_succ_apply']
      exact (hf _ ih).2
  have hedge : ∀ k, f^[k + 1] n0 ∈ depsOf tasks (f^[k] n0) := by
    intro k
    rw [Function.iterate_succ_apply']
    exact (hf _ (hgrem k)).1
  have hpath : ∀ (m : Nat), 1 ≤ m → ∀ i,
      reachableIn tasks m (f^[i] n0) (f^[i + m] n0) = true := by
    intro m
    induction m with
    | zero => intro h; omega
    | succ m ih =>
      intro _ i
      rcases Nat.eq_zero_or_pos m with hm0 | hm1
      · subst hm0
        rw [reachableIn, List.any_eq_true]
        exact ⟨f^[i + 1] n0, hedge i, by simp⟩
      · rw [reachableIn, List.any_eq_true]
        refine ⟨f^[i + 1] n0, hedge i, ?_⟩
        rw [Bool.or_eq_true]
        right
        have h2 := ih hm1 (i + 1)
        have harith : i + 1 + m = i + (m + 1) := by omega
        rw [harith] at h2
        exact h2
  have hmaps : ∀ k ∈ Finset.range (rem.length + 1),
      f^[k] n0 ∈ rem.toFinset := by
    intro k _
    exact List.mem_toFinset.mpr (hgrem k)
  have hcard : rem.toFinset.card < (Finset.range (rem.length + 1)).card := by
    rw [Finset.card_range]
    exact Nat.lt_succ_of_le (List.toFinset_card_le rem)
  obtain ⟨i, hi, j, hj, hij, hgij⟩ :=
    Finset.exists_ne_map_eq_of_card_lt_of_maps_to hcard hmaps
  rcases Nat.lt_or_ge i j with hlt | hge
  · refine ⟨f^[i] n0, j - i, ?_⟩
    have h3 := hpath (j - i) (by omega) i
    rw [show i + (j - i) = j from by omega] at h3
    rw [← hgij] at h3
    exact h3
  · have hlt2 : j < i := by omega
    refine ⟨f^[j] n0, i - j, ?_⟩
    have h3 := hpath (i - j) (by omega) j
    rw [show j + (i - j) = i from by omega] at h3
    rw [hgij] at h3
    exact h3

/-- Splitting a `filterMap` into the part a selector keeps and the part it
leaves behind, up to permutation. -/
theorem filterMap_perm_split {α β : Type} (f g : α → Option β) (p : α → Bool) :
    ∀ (l : List α),
      (∀ n ∈ l, ∀ t, g n = some t → f n = some t ∧ p n = false) →
      (∀ n ∈ l, g n = none → p n = true) →
      (l.filterMap f).Perm (l.filterMap g ++ (l.filter p).filterMap f) := by
  intro l
  induction l with
  | nil => intro _ _; simp
  | cons a l ih =>
    intro h1 h2
    have ih2 := ih (fun n hn => h1 n (List.mem_cons_of_mem a hn))
      (fun n hn => h2 n (List.mem_cons_of_mem a hn))
    cases hg : g a with
    | some t =>
      obtain ⟨hfa, hpa⟩ := h1 a (List.mem_cons_self a l) t hg
      simp only [List.filterMap_cons, hfa, hg, List.filter_cons, hpa,
        Bool.false_eq_true, if_false]
      exact List.Perm.cons t ih2
    | none =>
      have hpa := h2 a (List.mem_cons_self a l) hg
      cases hfa : f a with
      | none =>
        simp only [List.filterMap_cons, hfa, hg, List.filter_cons, hpa,
          if_true]
        exact ih2
      | some t =>
        simp only [List.filterMap_cons, hfa, hg, List.filter_cons, hpa,
          if_true]
        refine (List.Perm.cons t ih2).trans ?_
        exact List.perm_middle.symm

/-- Under unique task names, looking every listed name back up recovers the
task list itself. -/
theorem filterMap_findTask_self (tasks : List Task)
    (hnodup : (tasks.map Task.name).Nodup) :
    (tasks.map Task.name).filterMap (findTask tasks) = tasks := by
  induction tasks with
  | nil => rfl
  | cons t ts ih =>
    rw [List.map_cons] at hnodup
    have hnin : t.name ∉ ts.map Task.name := (List.nodup_cons.mp hnodup).1
    have hnd : (ts.map Task.name).Nodup := (List.nodup_cons.mp hnodup).2
    have hft : findTask (t :: ts) t.name = some t := by
      unfold findTask
      rw [List.find?_cons_of_pos _ (by simp)]
    have htail : List.filterMap (findTask (t :: ts)) (ts.map Task.name) =
        List.filterMap (findTask ts) (ts.map Task.name) := by
      apply List.filterMap_congr
      intro n hn
      have hne : (t.name == n) = false := by
        cases hval : (t.name == n) with
        | false => rfl
        | true =>
          have heq := eq_of_beq hval
          exact absurd (heq ▸ hn) hnin
      unfold findTask
      rw [List.find?_cons_of_neg _ (by simp [hne])]
    rw [List.map_cons, List.filterMap_cons, hft]
    show t :: List.filterMap (findTask (t :: ts)) (ts.map Task.name) = t :: ts
    rw [htail, ih hnd]

/-- Properties of a successful plan: the batches are a permutation of the
looked-up undone tasks, and every dependency of a task in batch `i` is
either already completed or named in an earlier batch. -/
theorem planLoop_ok_props (tasks : List Task) :
    ∀ (len : Nat) (remaining completed : List String),
      remaining.length = len →
      remaining.Nodup →
      (∀ n ∈ remaining, ∃ t, findTask tasks n = some t) →
      ∀ bs, planLoop tasks completed remaining = .ok bs →
        ((bs.map ScheduledBatch.tasks).flatten.Perm
            (remaining.filterMap (findTask tasks)) ∧
          (∀ i t, t ∈ (bs.getD i ⟨[]⟩).tasks → ∀ dep ∈ t.dependsOn,
            dep ∈ completed ∨
              ∃ j, j < i ∧ dep ∈ ((bs.getD j ⟨[]⟩).tasks.map Task.name))) := by
  intro len
  induction len using Nat.strong_induction_on with
  | _ len ih =>
    intro remaining completed hlen hnodup hdef bs hok
    cases h0 : remaining.isEmpty with
    | true =>
      have hrnil : remaining = [] := List.isEmpty_iff.mp h0
      rw [planLoop_empty h0] at hok
      obtain rfl := (Except.ok.inj hok)
      constructor
      · subst hrnil
        simp
      · intro i t htmem
        simp [List.getD] at htmem
    | false =>
      by_cases hready : readyTasks tasks completed remaining = []
      · rw [planLoop_stuck h0 hready] at hok
        exact absurd hok (by simp)
      · rw [planLoop_step h0 hready] at hok
        cases hrec : planLoop tasks
            (completed ++ (readyTasks tasks completed remaining).map Task.name)
            (remaining.filter (fun n =>
              !(((readyTasks tasks completed remaining).map Task.name).contains n))) with
        | error e =>
          rw [hrec] at hok
          exact absurd hok (by simp)
        | ok bs2 =>
          rw [hrec] at hok
          obtain rfl := (Except.ok.inj hok)
          have hnodup2 : (remaining.filter (fun n =>
              !(((readyTasks tasks completed remaining).map Task.name).contains n))).Nodup :=
            hnodup.filter _
          have hdef2 : ∀ n ∈ remaining.filter (fun n =>
              !(((readyTasks tasks completed remaining).map Task.name).contains n)),
              ∃ t, findTask tasks n = some t :=
            fun n hn => hdef n (List.mem_filter.mp hn).1
          have hlt : (remaining.filter (fun n =>
              !(((readyTasks tasks completed remaining).map Task.name).contains n))).length <
              remaining.length := by
            apply List.length_filter_lt_length_iff_exists.mpr
            obtain ⟨t, ht⟩ := List.exists_mem_of_ne_nil _ hready
            obtain ⟨m, hm, hf, hd⟩ := mem_readyTasks.mp ht
            obtain ⟨hname, -⟩ := findTask_some hf
            refine ⟨m, hm, ?_⟩
            have hmm : m ∈ (readyTasks tasks completed remaining).map Task.name :=
              List.mem_map.mpr ⟨t, ht, hname⟩
            simp [List.contains, List.elem_iff, hmm]
          obtain ⟨hperm, hord⟩ := ih _ (hlen ▸ hlt) _
            (completed ++ (readyTasks tasks completed remaining).map Task.name)
            rfl hnodup2 hdef2 bs2 hrec
          have h1 : ∀ n ∈ remaining, ∀ t,
              (match findTask tasks n with
                | some u => if depsMet completed u then some u else none
                | none => none) = some t →
              findTask tasks n = some t ∧
                (!(((readyTasks tasks completed remaining).map Task.name).contains n)) = false := by
            intro n hn t hg
            cases hf : findTask tasks n with
            | none => rw [hf] at hg; simp at hg
            | some u =>
              rw [hf] at hg
              by_cases hd : depsMet completed u = true
              · simp only [hd, if_true] at hg
                have hut : u = t := Option.some.inj hg
                subst hut
                refine ⟨rfl, ?_⟩
                have htready : u ∈ readyTasks tasks completed remaining :=
                  mem_readyTasks.mpr ⟨n, hn, hf, hd⟩
                obtain ⟨hname, -⟩ := findTask_some hf
                have hmm : n ∈ (readyTasks tasks completed remaining).map Task.name :=
                  List.mem_map.mpr ⟨u, htready, hname⟩
                simp [List.contains, List.elem_iff, hmm]
              · simp [hd] at hg
          have h2 : ∀ n ∈ remaining,
              (match findTask tasks n with
                | some u => if depsMet completed u then some u else none
                | none => none) = none →
              (!(((readyTasks tasks completed remaining).map Task.name).contains n)) = true := by
            intro n hn hg
            have hnin : n ∉ (readyTasks tasks completed remaining).map Task.name := by
              intro hmem
              obtain ⟨u, hu, hun⟩ := List.mem_map.mp hmem
              obtain ⟨m, hm, hf, hd⟩ := mem_readyTasks.mp hu
              obtain ⟨hname, -⟩ := findTask_some hf
              have hmn : m = n := by rw [← hname]; exact hun
              rw [hmn] at hf
              rw [hf] at hg
              simp [hd] at hg
            simp [List.contains, List.elem_iff, hnin]
          have hsplit := filterMap_perm_split (findTask tasks)
            (fun n => match findTask tasks n with
              | some u => if depsMet completed u then some u else none
              | none => none)
            (fun n => !(((readyTasks tasks completed remaining).map Task.name).contains n))
            remaining h1 h2
          constructor
          · simp only [List.map_cons, List.flatten_cons]
            refine (List.Perm.append_left (readyTasks tasks completed remaining) hperm).trans ?_
            exact hsplit.symm
          · intro i t htmem dep hdep
            cases i with
            | zero =>
              rw [List.getD_cons_zero] at htmem
              obtain ⟨m, hm, hf, hd⟩ := mem_readyTasks.mp htmem
              left
              have hall := List.all_eq_true.mp hd dep hdep
              simpa [List.contains, List.elem_iff] using hall
            | succ i =>
              rw [List.getD_cons_succ] at htmem
              rcases hord i t htmem dep hdep with hc | ⟨j, hji, hmem⟩
              · rcases List.mem_append.mp hc with h | h
                · exact Or.inl h
                · refine Or.inr ⟨0, Nat.succ_pos i, ?_⟩
                  rw [List.getD_cons_zero]
                  exact h
              · refine Or.inr ⟨j + 1, Nat.succ_lt_succ hji, ?_⟩
                rw [List.getD_cons_succ]
                exact hmem

/-- Acyclic dependencies make the loop succeed: towards the stuck branch,
every undone task would have an undone dependency, which yields a cycle. -/
theorem planLoop_ok_of_acyclic (tasks : List Task)
    (hacyc : ∀ n, ¬ InCycle tasks n) :
    ∀ (len : Nat) (remaining completed : List String),
      remaining.length = len →
      (∀ n ∈ remaining, ∃ t, findTask tasks n = some t) →
      (∀ n ∈ remaining, ∀ dep ∈ depsOf tasks n, dep ∈ completed ∨ dep ∈ remaining) →
      ∃ bs, planLoop tasks completed remaining = .ok bs := by
  intro len
  induction len using Nat.strong_induction_on with
  | _ len ih =>
    intro remaining completed hlen hdef hclosed
    cases h0 : remaining.isEmpty with
    | true => exact ⟨[], planLoop_empty h0⟩
    | false =>
      have hne : remaining ≠ [] := List.isEmpty_eq_false.mp h0
      by_cases hready : readyTasks tasks completed remaining = []
      · exfalso
        have hsucc : ∀ n ∈ remaining, ∃ dep ∈ depsOf tasks n, dep ∈ remaining := by
          intro n hn
          obtain ⟨t, hf⟩ := hdef n hn
          have hnd : depsMet completed t = false := by
            cases hval : depsMet completed t with
            | false => rfl
            | true =>
              have : t ∈ readyTasks tasks completed remaining :=
                mem_readyTasks.mpr ⟨n, hn, hf, hval⟩
              rw [hready] at this
              simp at this
          have hex : ∃ dep ∈ t.dependsOn, (completed.contains dep) = false := by
            by_contra hcon
            push_neg at hcon
            have : depsMet completed t = true := by
              apply List.all_eq_true.mpr
              intro dep hdep
              cases hval : completed.contains dep with
              | true => rfl
              | false => exact absurd hval (hcon dep hdep)
            rw [this] at hnd
            exact absurd hnd (by simp)
          obtain ⟨dep, hdep, hdepc⟩ := hex
          have hdepof : dep ∈ depsOf tasks n := by
            unfold depsOf
            rw [hf]
            exact hdep
          have hdepnc : dep ∉ completed := by
            intro hc
            rw [show completed.contains dep = true from by
              simp [List.contains, List.elem_iff, hc]] at hdepc
            exact absurd hdepc (by simp)
          rcases hclosed n hn dep hdepof with h | h
          · exact absurd h hdepnc
          · exact ⟨dep, hdepof, h⟩
        obtain ⟨n, hcyc⟩ := exists_cycle_of_succ tasks remaining hne hsucc
        exact hacyc n hcyc
      · have hdef2 : ∀ n ∈ remaining.filter (fun n =>
            !(((readyTasks tasks completed remaining).map Task.name).contains n)),
            ∃ t, findTask tasks n = some t :=
          fun n hn => hdef n (List.mem_filter.mp hn).1
        have hclosed2 : ∀ n ∈ remaining.filter (fun n =>
            !(((readyTasks tasks completed remaining).map Task.name).contains n)),
            ∀ dep ∈ depsOf tasks n,
              dep ∈ completed ++ (readyTasks tasks completed remaining).map Task.name ∨
              dep ∈ remaining.filter (fun n =>
                !(((readyTasks tasks completed remaining).map Task.name).contains n)) := by
          intro n hn dep hdep
          rcases hclosed n (List.mem_filter.mp hn).1 dep hdep with h | h
          · exact Or.inl (List.mem_append.mpr (Or.inl h))
          · by_cases hr : dep ∈ (readyTasks tasks completed remaining).map Task.name
            · exact Or.inl (List.mem_append.mpr (Or.inr hr))
            · refine Or.inr (List.mem_filter.mpr ⟨h, ?_⟩)
              simp [List.contains, List.elem_iff, hr]
        have hlt : (remaining.filter (fun n =>
            !(((readyTasks tasks completed remaining).map Task.name).contains n))).length <
            remaining.length := by
          apply List.length_filter_lt_length_iff_exists.mpr
          obtain ⟨t, ht⟩ := List.exists_mem_of_ne_nil _ hready
          obtain ⟨m, hm, hf, hd⟩ := mem_readyTasks.mp ht
          obtain ⟨hname, -⟩ := findTask_some hf
          refine ⟨m, hm, ?_⟩
          have hmm : m ∈ (readyTasks tasks completed remaining).map Task.name :=
            List.mem_map.mpr ⟨t, ht, hname⟩
          simp [List.contains, List.elem_iff, hmm]
        obtain ⟨bs2, hrec⟩ := ih _ (hlen ▸ hlt) _
          (completed ++ (readyTasks tasks completed remaining).map Task.name)
          rfl hdef2 hclosed2
        refine ⟨⟨readyTasks tasks completed remaining⟩ :: bs2, ?_⟩
        rw [planLoop_step h0 hready, hrec]

/-- C1.  For a workflow with unique task names, all dependencies defined,
and an acyclic dependency relation, `plan` succeeds; every dependency of a
task in batch `i` names a task in a strictly earlier batch, and the
concatenation of the batches is a permutation of the task list (every task
exactly once). -/
theorem scheduler_plan_acyclic_correct (w : BrowserWorkflow)
    (hnodup : (w.tasks.map Task.name).Nodup)
    (hdef : ∀ t ∈ w.tasks, ∀ dep ∈ t.dependsOn, dep ∈ w.tasks.map Task.name)
    (hacyc : ∀ n, ¬ InCycle w.tasks n) :
    ∃ batches, Scheduler.plan w = .ok batches ∧
      (∀ i t, t ∈ (batches.getD i ⟨[]⟩).tasks → ∀ dep ∈ t.dependsOn,
        ∃ j, j < i ∧ dep ∈ ((batches.getD j ⟨[]⟩).tasks.map Task.name)) ∧
      (batches.map ScheduledBatch.tasks).flatten.Perm w.tasks := by
  have hdef1 : ∀ n ∈ w.tasks.map Task.name, ∃ t, findTask w.tasks n = some t :=
    fun n hn => findTask_isSome hn
  have hclosed : ∀ n ∈ w.tasks.map Task.name, ∀ dep ∈ depsOf w.tasks n,
      dep ∈ ([] : List String) ∨ dep ∈ w.tasks.map Task.name := by
    intro n hn dep hdep
    right
    unfold depsOf at hdep
    cases hf : findTask w.tasks n with
    | none => rw [hf] at hdep; simp at hdep
    | some t =>
      rw [hf] at hdep
      obtain ⟨-, hmem⟩ := findTask_some hf
      exact hdef t hmem dep hdep
  obtain ⟨bs, hok⟩ := planLoop_ok_of_acyclic w.tasks hacyc
    (w.tasks.map Task.name).length (w.tasks.map Task.name) [] rfl hdef1 hclosed
  obtain ⟨hperm, hord⟩ := planLoop_ok_props w.tasks
    (w.tasks.map Task.name).length (w.tasks.map Task.name) [] rfl hnodup
    hdef1 bs hok
  refine ⟨bs, hok, ?_, ?_⟩
  · intro i t ht dep hdep
    rcases hord i t ht dep hdep with hc | hj
    · simp at hc
    · exact hj
  · rw [filterMap_findTask_self w.tasks hnodup] at hperm
    exact hperm

/-- The two-task chain workflow has no dependency cycle. -/
theorem exChain_acyclic : ∀ n, ¬ InCycle exChain.tasks n := by
  intro n hcyc
  have hA : ∀ k b, reachableIn exChain.tasks k "A" b = false := by
    intro k b
    cases k with
    | zero => rfl
    | succ k =>
      rw [reachableIn]
      have hd : depsOf exChain.tasks "A" = [] := rfl
      rw [hd]
      rfl
  have hmem := InCycle_mem hcyc
  have hn2 : n = "A" ∨ n = "B" := by
    simpa [exChain, exTaskA, exTaskB] using hmem
  rcases hn2 with rfl | rfl
  · obtain ⟨k, hk⟩ := hcyc
    rw [hA k "A"] at hk
    exact absurd hk (by simp)
  · obtain ⟨k, hk⟩ := hcyc
    cases k with
    | zero => simp [reachableIn] at hk
    | succ k =>
      rw [reachableIn] at hk
      have hd : depsOf exChain.tasks "B" = ["A"] := rfl
      rw [hd] at hk
      simp [hA k "B"] at hk

/-- Witness for C1: the chain `A` then `B`. -/
theorem scheduler_plan_acyclic_correct_witness :
    ∃ batches, Scheduler.plan exChain = .ok batches ∧
      (∀ i t, t ∈ (batches.getD i ⟨[]⟩).tasks → ∀ dep ∈ t.dependsOn,
        ∃ j, j < i ∧ dep ∈ ((batches.getD j ⟨[]⟩).tasks.map Task.name)) ∧
      (batches.map ScheduledBatch.tasks).flatten.Perm exChain.tasks :=
  scheduler_plan_acyclic_correct exChain (by decide) (by decide) exChain_acyclic

end Nightglow
